import Mathlib

/-!
Verification of the codemap core: a shallow embedding of the extractor
(`src/indexer/extractor.ts`), the parser-adapter helpers
(`src/indexer/parser.ts`), the path utilities (`src/utils/paths.ts`), the
file scanner (`src/indexer/scanner.ts`) and the incremental indexer
(`src/indexer/indexer.ts`), together with theorems about the data-model
invariants and the indexing algorithms.

Conventions of the embedding:
  * tree-sitter (an external grammar library) is modelled by taking the
    already parsed concrete syntax tree as input; each node carries its
    node type, its optional field name, its source text slice and its
    start/end rows, exactly the attributes the extractor reads;
  * JavaScript strings are Lean `String`s; the JS helpers used by the
    source (`split`, `startsWith`, `replace(/['"]/g,'')`, truthiness of
    strings) are given explicit Lean models named `js...`;
  * the SQLite store is a record of four row lists plus the AUTOINCREMENT
    counters of the three surrogate-keyed tables;
  * better-sqlite3's `db.transaction(fn)` commits when `fn` returns and
    rolls back only when `fn` throws; throwing is modelled with `Except`,
    where the error value carries the connection state at the throw site.
-/

namespace Codemap

/-! ## JavaScript string primitives used by the source -/

/-- Model of JS `String.prototype.split` with a one-character separator,
on char lists: `splitCharList c "a/b".data = ["a".data, "b".data]` and the
split of the empty list is `[[]]`, as in JS. -/
def splitCharList (c : Char) : List Char → List (List Char)
  | [] => [[]]
  | ch :: rest =>
    let r := splitCharList c rest
    if ch = c then [] :: r
    else
      match r with
      | [] => [[ch]]
      | h :: t => (ch :: h) :: t

/-- Model of JS `s.split(c)` for a one-character separator. -/
def jsSplit (c : Char) (s : String) : List String :=
  (splitCharList c s.data).map String.mk

/-- Model of JS `s.startsWith(p)`. -/
def jsStartsWith (p s : String) : Bool :=
  p.data.isPrefixOf s.data

/-- Model of JS `s.replace(/['"]/g, '')`: drop every single or double
quote character. -/
def stripQuotes (s : String) : String :=
  String.mk (s.data.filter fun c => !(c = '\'' || c = '"'))

/-- Model of JS string truthiness for an optional string: `undefined`,
`null` and the empty string are falsy. -/
def jsTruthy : Option String → Bool
  | none => false
  | some s => s ≠ ""

/-- Model of JS `s.slice(0, n)`. -/
def jsSlice (s : String) (n : Nat) : String :=
  String.mk (s.data.take n)

/-- Model of JS `s.toLowerCase()` (ASCII, which is all the source feeds it). -/
def jsToLower (s : String) : String :=
  String.mk (s.data.map Char.toLower)

/-- First line of a string: JS `s.split('\n')[0]`. -/
def firstLine (s : String) : String :=
  String.mk (s.data.takeWhile fun c => c ≠ '\n')

/-! ## Syntax tree model (parser adapter)

`parseFile` wraps the external tree-sitter parser; its output tree is the
input of this embedding.  A node carries `ty` (tree-sitter node type),
`fieldName` (the grammar field this node fills in its parent, the basis of
`childForFieldName`), `text` (the content slice `content.slice(startIndex,
endIndex)` returned by `getNodeText`), and the 0-based start/end rows. -/

inductive TSNode where
  | mk (ty : String) (fieldName : Option String) (text : String)
      (startRow endRow : Nat) (children : List TSNode)

def TSNode.ty : TSNode → String
  | .mk t _ _ _ _ _ => t

def TSNode.fieldName : TSNode → Option String
  | .mk _ f _ _ _ _ => f

def TSNode.text : TSNode → String
  | .mk _ _ x _ _ _ => x

def TSNode.startRow : TSNode → Nat
  | .mk _ _ _ s _ _ => s

def TSNode.endRow : TSNode → Nat
  | .mk _ _ _ _ e _ => e

def TSNode.children : TSNode → List TSNode
  | .mk _ _ _ _ _ cs => cs

/-- `node.childForFieldName(f)`: the first child filling grammar field `f`. -/
def childForFieldName (n : TSNode) (f : String) : Option TSNode :=
  n.children.find? fun c => c.fieldName = some f

/-- `findChild` from `parser.ts`: first child of the given type. -/
def findChild (n : TSNode) (t : String) : Option TSNode :=
  n.children.find? fun c => c.ty = t

/-- `findChildren` from `parser.ts`: all children of the given type. -/
def findChildren (n : TSNode) (t : String) : List TSNode :=
  n.children.filter fun c => c.ty = t

/-- `node.children.some(c => c.type === t)`. -/
def hasChildOfType (n : TSNode) (t : String) : Bool :=
  n.children.any fun c => c.ty = t

mutual

/-- `findAllOfType` from `parser.ts` (pre-order recursive search), paired
with each found node's parent, which the extractor reads via `node.parent`.
The search is started at the root with `parent = none`. -/
def findAllOfType (t : String) (parent : Option TSNode) : TSNode → List (TSNode × Option TSNode)
  | .mk ty f x s e cs =>
    let self := TSNode.mk ty f x s e cs
    (if ty = t then [(self, parent)] else []) ++ findAllOfTypeList t self cs

def findAllOfTypeList (t : String) (parent : TSNode) : List TSNode → List (TSNode × Option TSNode)
  | [] => []
  | c :: cs => findAllOfType t (some parent) c ++ findAllOfTypeList t parent cs

end

/-! ## Extraction payload types (`src/db/types.ts`) -/

/-- `SymbolInsert`: the extractor's symbol payload.  `parent_symbol_id`
holds the parent's local ordinal until the indexer remaps it to the
persisted id. -/
structure SymbolInsert where
  name : String
  file_path : String
  line_start : Nat
  line_end : Nat
  kind : String
  signature : String
  exported : Bool
  is_default : Bool
  parent_symbol_id : Option Nat := none
deriving Repr, DecidableEq

/-- `ImportInsert`: the extractor's import payload. -/
structure ImportInsert where
  importer_path : String
  imported_path : Option String := none
  imported_name : String
  «alias» : Option String := none
  is_external : Bool
  package_name : Option String := none
  line_number : Nat
deriving Repr, DecidableEq

/-- `ExportInsert`: the extractor's export payload.  `symbol_id` holds a
local ordinal into the extraction's symbol list until the indexer remaps
it. -/
structure ExportInsert where
  file_path : String
  exported_name : String
  local_name : Option String := none
  symbol_id : Option Nat := none
  is_reexport : Bool
  source_path : Option String := none
  line_number : Nat
deriving Repr, DecidableEq

/-- `ExtractionResult` from `extractor.ts`. -/
structure ExtractionResult where
  symbols : List SymbolInsert
  imports : List ImportInsert
  exports : List ExportInsert
  hasDefaultExport : Bool
deriving Repr, DecidableEq

/-! ## Signature helpers (`extractor.ts`, bottom section) -/

/-- Strip of the leading `^:\s*` regex applied to a return-type slice. -/
def stripLeadingColon (s : String) : String :=
  match s.data with
  | ':' :: rest => String.mk (rest.dropWhile Char.isWhitespace)
  | _ => s

/-- `getSignature` for function declarations. -/
def getSignature (fn : TSNode) : String :=
  let parts : List String :=
    (if hasChildOfType fn "async" then ["async"] else [])
    ++ ["function"]
    ++ (match childForFieldName fn "name" with
        | some n => [n.text]
        | none => [])
    ++ (match childForFieldName fn "parameters" with
        | some p => [p.text]
        | none => [])
    ++ (match childForFieldName fn "return_type" with
        | some r => [": " ++ stripLeadingColon r.text]
        | none => [])
  String.intercalate " " parts

/-- `getVariableSignature`: first line of the declaration, capped at 100
characters. -/
def getVariableSignature (varDecl : TSNode) : String :=
  let l := firstLine varDecl.text
  if l.length > 100 then jsSlice l 97 ++ "..." else l

/-- `getClassSignature`. -/
def getClassSignature (cls : TSNode) : String :=
  let parts : List String :=
    ["class"]
    ++ (match childForFieldName cls "name" with
        | some n => [n.text]
        | none => [])
    ++ (match childForFieldName cls "type_parameters" with
        | some h => [h.text]
        | none => [])
    ++ (match findChild cls "extends_clause" with
        | some e => [e.text]
        | none => [])
    ++ (match findChild cls "implements_clause" with
        | some i => [i.text]
        | none => [])
  String.intercalate " " parts

/-- `getMethodSignature`. -/
def getMethodSignature (method : TSNode) : String :=
  let parts : List String :=
    (if hasChildOfType method "static" then ["static"] else [])
    ++ (if hasChildOfType method "async" then ["async"] else [])
    ++ (match childForFieldName method "name" with
        | some n => [n.text]
        | none => [])
    ++ (match childForFieldName method "parameters" with
        | some p => [p.text]
        | none => [])
    ++ (match childForFieldName method "return_type" with
        | some r => [": " ++ stripLeadingColon r.text]
        | none => [])
  String.intercalate " " parts

/-- `getInterfaceSignature`. -/
def getInterfaceSignature (iface : TSNode) : String :=
  let parts : List String :=
    ["interface"]
    ++ (match childForFieldName iface "name" with
        | some n => [n.text]
        | none => [])
    ++ (match childForFieldName iface "type_parameters" with
        | some t => [t.text]
        | none => [])
    ++ (match findChild iface "extends_type_clause" with
        | some e => [e.text]
        | none => [])
  String.intercalate " " parts

/-- `getTypeAliasSignature`: first line, capped at 100 characters. -/
def getTypeAliasSignature (typeAlias : TSNode) : String :=
  let l := firstLine typeAlias.text
  if l.length > 100 then jsSlice l 97 ++ "..." else l

/-- `getEnumSignature`. -/
def getEnumSignature (enumDecl : TSNode) : String :=
  let parts : List String :=
    ["enum"]
    ++ (match childForFieldName enumDecl "name" with
        | some n => [n.text]
        | none => [])
  String.intercalate " " parts

/-- `getPackageName`: first path segment; first two segments for
scope-prefixed specifiers. -/
def getPackageName (importPath : String) : String :=
  if jsStartsWith "@" importPath then
    String.intercalate "/" ((jsSplit '/' importPath).take 2)
  else
    ((jsSplit '/' importPath).headD "")

/-! ## Symbol extraction (`extractSymbols` in `extractor.ts`)

The source pushes, in this order: function declarations, variable
declarations (lexical first, then `var`), class declarations each followed
immediately by its methods and public fields, interfaces, type aliases and
enums.  Each segment below is one of those loops; the class segment
threads the running length of the symbol array because the class's local
ordinal (`classId = symbols.length`) becomes the `parent_symbol_id` of its
members. -/

/-- The local `isExported` helper: the immediate parent is an export
statement. -/
def nodeIsExported (parent : Option TSNode) : Bool :=
  match parent with
  | none => false
  | some p => p.ty = "export_statement"

/-- The local `isDefault` helper: the parent is an export statement with a
`default` child. -/
def nodeIsDefault (parent : Option TSNode) : Bool :=
  match parent with
  | none => false
  | some p => p.ty = "export_statement" && hasChildOfType p "default"

/-- Loop over `function_declaration` nodes. -/
def functionSymbols (filePath : String) (fns : List (TSNode × Option TSNode)) : List SymbolInsert :=
  fns.filterMap fun (fn, par) =>
    match childForFieldName fn "name" with
    | none => none
    | some nameNode =>
      some { name := nameNode.text
             file_path := filePath
             line_start := fn.startRow + 1
             line_end := fn.endRow + 1
             kind := "function"
             signature := getSignature fn
             exported := nodeIsExported par
             is_default := nodeIsDefault par }

/-- Body of the declarator loop for one variable declaration statement. -/
def declaratorSymbols (filePath : String) (varDecl : TSNode) (par : Option TSNode) : List SymbolInsert :=
  (findChildren varDecl "variable_declarator").filterMap fun declarator =>
    match childForFieldName declarator "name", childForFieldName declarator "value" with
    | some nameNode, some valueNode =>
      if valueNode.ty = "arrow_function" || valueNode.ty = "function" then
        some { name := nameNode.text
               file_path := filePath
               line_start := varDecl.startRow + 1
               line_end := varDecl.endRow + 1
               kind := "function"
               signature := getVariableSignature varDecl
               exported := nodeIsExported par
               is_default := nodeIsExported par && nodeIsDefault par }
      else
        some { name := nameNode.text
               file_path := filePath
               line_start := varDecl.startRow + 1
               line_end := varDecl.endRow + 1
               kind := "variable"
               signature := getVariableSignature varDecl
               exported := nodeIsExported par
               is_default := false }
    | _, _ => none

/-- Loop over variable declaration statements (`lexical_declaration` and
`variable_declaration` finds concatenated). -/
def variableSymbols (filePath : String) (decls : List (TSNode × Option TSNode)) : List SymbolInsert :=
  decls.flatMap fun (varDecl, par) => declaratorSymbols filePath varDecl par

/-- Members of one class body: `method_definition` children, then
`public_field_definition` children, each with `parent_symbol_id` set to
the class's local ordinal. -/
def classMemberSymbols (filePath : String) (classId : Nat) (cls : TSNode) : List SymbolInsert :=
  match childForFieldName cls "body" with
  | none => []
  | some body =>
    ((findChildren body "method_definition").filterMap fun method =>
      match childForFieldName method "name" with
      | none => none
      | some methodNameNode =>
        some { name := methodNameNode.text
               file_path := filePath
               line_start := method.startRow + 1
               line_end := method.endRow + 1
               kind := "method"
               signature := getMethodSignature method
               exported := false
               is_default := false
               parent_symbol_id := some classId })
    ++ ((findChildren body "public_field_definition").filterMap fun field =>
      match childForFieldName field "name" with
      | none => none
      | some fieldNameNode =>
        some { name := fieldNameNode.text
               file_path := filePath
               line_start := field.startRow + 1
               line_end := field.endRow + 1
               kind := "property"
               signature := firstLine field.text
               exported := false
               is_default := false
               parent_symbol_id := some classId })

/-- The class symbol itself. -/
def classSymbolOf (filePath : String) (cls : TSNode) (par : Option TSNode) (nameNode : TSNode) : SymbolInsert :=
  { name := nameNode.text
    file_path := filePath
    line_start := cls.startRow + 1
    line_end := cls.endRow + 1
    kind := "class"
    signature := getClassSignature cls
    exported := nodeIsExported par
    is_default := nodeIsDefault par }

/-- Loop over `class_declaration` nodes; `idx` is `symbols.length` before
the class is pushed, i.e. the class's local ordinal, and the recursive
call continues from the array length after the class and its members were
pushed. -/
def classSymbols (filePath : String) : Nat → List (TSNode × Option TSNode) → List SymbolInsert
  | _, [] => []
  | idx, (cls, par) :: rest =>
    match childForFieldName cls "name" with
    | none => classSymbols filePath idx rest
    | some nameNode =>
      (classSymbolOf filePath cls par nameNode :: classMemberSymbols filePath idx cls)
        ++ classSymbols filePath (idx + 1 + (classMemberSymbols filePath idx cls).length) rest

/-- Loop over `interface_declaration` nodes. -/
def interfaceSymbols (filePath : String) (ifaces : List (TSNode × Option TSNode)) : List SymbolInsert :=
  ifaces.filterMap fun (iface, par) =>
    match childForFieldName iface "name" with
    | none => none
    | some nameNode =>
      some { name := nameNode.text
             file_path := filePath
             line_start := iface.startRow + 1
             line_end := iface.endRow + 1
             kind := "interface"
             signature := getInterfaceSignature iface
             exported := nodeIsExported par
             is_default := false }

/-- Loop over `type_alias_declaration` nodes. -/
def typeAliasSymbols (filePath : String) (aliases : List (TSNode × Option TSNode)) : List SymbolInsert :=
  aliases.filterMap fun (typeAlias, par) =>
    match childForFieldName typeAlias "name" with
    | none => none
    | some nameNode =>
      some { name := nameNode.text
             file_path := filePath
             line_start := typeAlias.startRow + 1
             line_end := typeAlias.endRow + 1
             kind := "type"
             signature := getTypeAliasSignature typeAlias
             exported := nodeIsExported par
             is_default := false }

/-- Loop over `enum_declaration` nodes. -/
def enumSymbols (filePath : String) (enums : List (TSNode × Option TSNode)) : List SymbolInsert :=
  enums.filterMap fun (enumDecl, par) =>
    match childForFieldName enumDecl "name" with
    | none => none
    | some nameNode =>
      some { name := nameNode.text
             file_path := filePath
             line_start := enumDecl.startRow + 1
             line_end := enumDecl.endRow + 1
             kind := "enum"
             signature := getEnumSignature enumDecl
             exported := nodeIsExported par
             is_default := false }

/-- `extractSymbols`: the full symbol pass in source order. -/
def extractSymbols (root : TSNode) (filePath : String) : List SymbolInsert :=
  let funcs := functionSymbols filePath (findAllOfType "function_declaration" none root)
  let vars := variableSymbols filePath
    (findAllOfType "lexical_declaration" none root
      ++ findAllOfType "variable_declaration" none root)
  let pre := funcs ++ vars
  let classes := classSymbols filePath pre.length (findAllOfType "class_declaration" none root)
  let ifaces := interfaceSymbols filePath (findAllOfType "interface_declaration" none root)
  let aliases := typeAliasSymbols filePath (findAllOfType "type_alias_declaration" none root)
  let enums := enumSymbols filePath (findAllOfType "enum_declaration" none root)
  pre ++ classes ++ ifaces ++ aliases ++ enums

/-! ## Import extraction (`extractImports` in `extractor.ts`) -/

/-- Rows produced by one `import_statement` node. -/
def importRowsOfStatement (filePath : String) (stmt : TSNode) : List ImportInsert :=
  match childForFieldName stmt "source" with
  | none => []
  | some sourceNode =>
    let sourcePath := stripQuotes sourceNode.text
    let isExternal := !(jsStartsWith "." sourcePath) && !(jsStartsWith "/" sourcePath)
    let packageName : Option String :=
      if isExternal then some (getPackageName sourcePath) else none
    let importedPath : Option String :=
      if isExternal then none else some sourcePath
    let line := stmt.startRow + 1
    match findChild stmt "import_clause" with
    | some importClause =>
      (match findChild importClause "identifier" with
       | some defaultImport =>
         [{ importer_path := filePath
            imported_path := importedPath
            imported_name := "default"
            «alias» := some defaultImport.text
            is_external := isExternal
            package_name := packageName
            line_number := line }]
       | none => [])
      ++ (match findChild importClause "named_imports" with
          | some namedImports =>
            (findChildren namedImports "import_specifier").filterMap fun spec =>
              match childForFieldName spec "name" with
              | none => none
              | some nameNode =>
                some { importer_path := filePath
                       imported_path := importedPath
                       imported_name := nameNode.text
                       «alias» := (childForFieldName spec "alias").map TSNode.text
                       is_external := isExternal
                       package_name := packageName
                       line_number := line }
          | none => [])
      ++ (match findChild importClause "namespace_import" with
          | some namespaceImport =>
            match findChild namespaceImport "identifier" with
            | some aliasNode =>
              [{ importer_path := filePath
                 imported_path := importedPath
                 imported_name := "*"
                 «alias» := some aliasNode.text
                 is_external := isExternal
                 package_name := packageName
                 line_number := line }]
            | none => []
          | none => [])
    | none =>
      [{ importer_path := filePath
         imported_path := importedPath
         imported_name := "*"
         is_external := isExternal
         package_name := packageName
         line_number := line }]

/-- `extractImports`: all `import_statement` nodes in pre-order. -/
def extractImports (root : TSNode) (filePath : String) : List ImportInsert :=
  (findAllOfType "import_statement" none root).flatMap fun (stmt, _) =>
    importRowsOfStatement filePath stmt

/-! ## Export extraction (`extractExports` in `extractor.ts`) -/

/-- Rows produced by one `export_statement` node, given the symbols
already extracted from the same file. -/
def exportRowsOfStatement (filePath : String) (symbols : List SymbolInsert) (stmt : TSNode) : List ExportInsert :=
  let lineNumber := stmt.startRow + 1
  let sourceNode := childForFieldName stmt "source"
  let isReexport := sourceNode.isSome
  let sourcePath := sourceNode.map fun n => stripQuotes n.text
  if hasChildOfType stmt "default" then
    [{ file_path := filePath
       exported_name := "default"
       is_reexport := isReexport
       source_path := sourcePath
       line_number := lineNumber }]
  else
    match findChild stmt "export_clause" with
    | some exportClause =>
      (findChildren exportClause "export_specifier").filterMap fun spec =>
        match childForFieldName spec "name" with
        | none => none
        | some nameNode =>
          let localName := nameNode.text
          let exportedName :=
            match childForFieldName spec "alias" with
            | some aliasNode => aliasNode.text
            | none => localName
          let symbolIdx := symbols.findIdx? fun s =>
            s.name = localName && s.file_path = filePath
          some { file_path := filePath
                 exported_name := exportedName
                 local_name := if localName ≠ exportedName then some localName else none
                 symbol_id := symbolIdx
                 is_reexport := isReexport
                 source_path := sourcePath
                 line_number := lineNumber }
    | none =>
      if (findChild stmt "namespace_export").isSome || hasChildOfType stmt "*" then
        [{ file_path := filePath
           exported_name := "*"
           is_reexport := true
           source_path := sourcePath
           line_number := lineNumber }]
      else
        match childForFieldName stmt "declaration" with
        | some declaration =>
          match symbols.findIdx? (fun s =>
            s.file_path = filePath && s.line_start = declaration.startRow + 1) with
          | some idx =>
            match symbols[idx]? with
            | some sym =>
              [{ file_path := filePath
                 exported_name := sym.name
                 symbol_id := some idx
                 is_reexport := false
                 line_number := lineNumber }]
            | none => []
          | none => []
        | none => []

/-- `extractExports`: all `export_statement` nodes in pre-order. -/
def extractExports (root : TSNode) (filePath : String) (symbols : List SymbolInsert) : List ExportInsert :=
  (findAllOfType "export_statement" none root).flatMap fun (stmt, _) =>
    exportRowsOfStatement filePath symbols stmt

/-- `extractFromFile`: parse (external, the tree is the input here) and
run the three extraction passes; `hasDefaultExport` is true iff some
export row is named `default`. -/
def extractFromFile (root : TSNode) (filePath : String) : ExtractionResult :=
  let symbols := extractSymbols root filePath
  let imports := extractImports root filePath
  let exports := extractExports root filePath symbols
  { symbols := symbols
    imports := imports
    exports := exports
    hasDefaultExport := exports.any fun e => e.exported_name = "default" }

/-! ## Path utilities (`src/utils/paths.ts`) and the filesystem model

The source uses Node's POSIX path functions and `fs.existsSync` /
`fs.statSync`.  Paths here are absolute (the indexer always joins against
an absolute project root before touching the filesystem), so the path
algebra is modelled on the segment list of an absolute path. -/

/-- The filesystem as seen by `resolveImportPath`: which absolute paths
exist as regular files and which as directories. -/
structure FileSys where
  isFile : List String
  isDir : List String
deriving Repr, DecidableEq

/-- `fs.existsSync`. -/
def FileSys.existsPath (fs : FileSys) (p : String) : Bool :=
  fs.isFile.contains p || fs.isDir.contains p

/-- `fs.statSync(p).isFile()`. -/
def FileSys.statIsFile (fs : FileSys) (p : String) : Bool :=
  fs.isFile.contains p

/-- `fs.statSync(p).isDirectory()`. -/
def FileSys.statIsDir (fs : FileSys) (p : String) : Bool :=
  fs.isDir.contains p

/-- Normalisation stack for POSIX path segments: drop empty and `.`
segments, resolve `..` by popping (paths here are absolute, so a leading
`..` is dropped, as Node does for absolute paths). -/
def normStack (acc : List String) : List String → List String
  | [] => acc.reverse
  | seg :: rest =>
    if seg = "" || seg = "." then normStack acc rest
    else if seg = ".." then
      match acc with
      | _ :: acc' => normStack acc' rest
      | [] => normStack [] rest
    else normStack (seg :: acc) rest

/-- Segments of a normalised absolute path. -/
def pathSegs (p : String) : List String :=
  normStack [] (jsSplit '/' p)

/-- Rebuild an absolute path from segments. -/
def segsToPath (segs : List String) : String :=
  "/" ++ String.intercalate "/" segs

/-- Node `path.join` / `path.normalize` for an absolute left operand. -/
def pathJoin (a b : String) : String :=
  segsToPath (normStack [] (jsSplit '/' a ++ jsSplit '/' b))

/-- Node `path.dirname` for an absolute path. -/
def dirname (p : String) : String :=
  segsToPath (pathSegs p).dropLast

/-- Node `path.relative(base, target)` for the indexer's use: `target` is
always inside `base`, so relativisation strips the base prefix. -/
def relativeTo (base target : String) : String :=
  let bs := pathSegs base
  let ts := pathSegs target
  if bs.isPrefixOf ts then String.intercalate "/" (ts.drop bs.length)
  else target

/-- The recognised source extensions tried by `resolveImportPath` (the
empty extension tries the bare path). -/
def resolveExtensions : List String :=
  [".ts", ".tsx", ".js", ".jsx", ".mjs", ".cjs", ""]

/-- The recognised index-file names tried inside a directory. -/
def resolveIndexFiles : List String :=
  ["index.ts", "index.tsx", "index.js", "index.jsx"]

/-- `resolveImportPath` from `paths.ts`: relative specifiers are resolved
against the importer's directory, first with each extension, then (for a
directory) with each index-file name; external specifiers and failed
resolutions give `none`. -/
def resolveImportPath (fs : FileSys) (importPath importerPath projectRoot : String) : Option String :=
  if !(jsStartsWith "." importPath) && !(jsStartsWith "/" importPath) then
    none
  else
    let importerDir := dirname (pathJoin projectRoot importerPath)
    let resolvedPath := pathJoin importerDir importPath
    match resolveExtensions.findSome? (fun ext =>
      let fullPath := resolvedPath ++ ext
      if fs.existsPath fullPath && fs.statIsFile fullPath then
        some (relativeTo projectRoot fullPath)
      else none) with
    | some r => some r
    | none =>
      if fs.existsPath resolvedPath && fs.statIsDir resolvedPath then
        match resolveIndexFiles.findSome? (fun indexFile =>
          let indexPath := pathJoin resolvedPath indexFile
          if fs.existsPath indexPath then some (relativeTo projectRoot indexPath)
          else none) with
        | some r => some r
        | none => none
      else none

/-- `getExtension` from `paths.ts`: the part after the last dot, or the
empty string when there is no dot. -/
def getExtension (filePath : String) : String :=
  let parts := jsSplit '.' filePath
  if parts.length > 1 then parts.getLastD "" else ""

/-- `getLanguageFromExtension` from `paths.ts`. -/
def getLanguageFromExtension (filePath : String) : Option String :=
  let ext := jsToLower (getExtension filePath)
  if ["ts", "tsx", "mts", "cts"].contains ext then some "typescript"
  else if ["js", "jsx", "mjs", "cjs"].contains ext then some "javascript"
  else none

/-! ## Scanner model (`src/indexer/scanner.ts`)

Glob/gitignore file discovery is an external collaborator; the disk is
modelled as a list of candidate source files, each carrying its mtime, its
readable content (`none` models a read failure) and its parse tree (the
external parser's output for that content). -/

/-- One on-disk source file. -/
structure DiskFile where
  path : String
  mtime : Nat
  content : Option String
  tree : TSNode

/-- The scanned project: candidate files (already matched by the external
glob/gitignore scanner) in listing order. -/
structure Disk where
  files : List DiskFile

/-- Look up a disk file by path (`fs.statSync` on the joined path; `none`
models the throw for a missing file). -/
def Disk.statFile (d : Disk) (p : String) : Option DiskFile :=
  d.files.find? fun f => f.path = p

/-- A scanned-and-loaded file as consumed by the per-file routine. -/
structure ScannedFile where
  path : String
  language : String
  mtime : Nat
  content : String
  tree : TSNode

/-- `countLines` from `scanner.ts`: `content.split('\n').length`. -/
def countLines (content : String) : Nat :=
  (jsSplit '\n' content).length

/-- `scanAndLoadFiles(root, config, filePaths)`: stat each requested path
(skipping missing files), keep files with a recognised language, and load
content, substituting the empty string when the read fails. -/
def scanAndLoadFiles (d : Disk) (filePaths : List String) : List ScannedFile :=
  filePaths.filterMap fun p =>
    match d.statFile p with
    | none => none
    | some df =>
      match getLanguageFromExtension p with
      | none => none
      | some lang =>
        some { path := p
               language := lang
               mtime := df.mtime
               content := df.content.getD ""
               tree := df.tree }

/-- `getFileModTimes`: the current path-to-mtime listing (files with a
recognised language, as `scanDirectory` filters). -/
def getFileModTimes (d : Disk) : List (String × Nat) :=
  d.files.filterMap fun f =>
    match getLanguageFromExtension f.path with
    | some _ => some (f.path, f.mtime)
    | none => none

/-! ## Persistent store model (`src/db/schema.ts` and `src/db/queries.ts`)

The schema (`SCHEMA_SQL`) is in the sources: four tables, surrogate
AUTOINCREMENT keys on symbols/imports/exports, `files.path` as primary
key, cascading delete from files, and `exports.symbol_id` ON DELETE SET
NULL.  The row-level operations of `queries.ts` are not in the sources
(only their declarations and callers are), so they are modelled from the
spec where marked. -/

/-- A `files` table row. -/
structure FileRow where
  path : String
  language : String
  modified_at : Nat
  loc : Nat
  has_default_export : Bool
deriving Repr, DecidableEq

/-- A `symbols` table row (surrogate `id` from AUTOINCREMENT). -/
structure SymbolRow where
  id : Nat
  name : String
  file_path : String
  line_start : Nat
  line_end : Nat
  kind : String
  signature : String
  exported : Bool
  is_default : Bool
  parent_symbol_id : Option Nat
deriving Repr, DecidableEq

/-- An `imports` table row. -/
structure ImportRow where
  id : Nat
  importer_path : String
  imported_path : Option String
  imported_name : String
  «alias» : Option String
  is_external : Bool
  package_name : Option String
  line_number : Nat
deriving Repr, DecidableEq

/-- An `exports` table row. -/
structure ExportRow where
  id : Nat
  file_path : String
  exported_name : String
  local_name : Option String
  symbol_id : Option Nat
  is_reexport : Bool
  source_path : Option String
  line_number : Nat
deriving Repr, DecidableEq

/-- The store: the four tables plus the AUTOINCREMENT counters (SQLite
AUTOINCREMENT never reuses an id, so each counter only grows). -/
structure Db where
  files : List FileRow
  symbols : List SymbolRow
  imports : List ImportRow
  exports : List ExportRow
  nextSymbolId : Nat
  nextImportId : Nat
  nextExportId : Nat
deriving Repr, DecidableEq

/-- The empty store. -/
def Db.empty : Db :=
  { files := [], symbols := [], imports := [], exports := []
    nextSymbolId := 1, nextImportId := 1, nextExportId := 1 }

/-- Modelled from the spec: `deleteFileData` (`db/queries.ts`, absent from
the sources) deletes any pre-existing rows for a file path across all
four tables; per `SCHEMA_SQL`, `exports.symbol_id` references that point
at a deleted symbol are set to null (ON DELETE SET NULL). -/
def deleteFileData (db : Db) (p : String) : Db :=
  let deadIds := (db.symbols.filter fun s => s.file_path = p).map SymbolRow.id
  { db with
    files := db.files.filter fun f => f.path ≠ p
    symbols := db.symbols.filter fun s => s.file_path ≠ p
    imports := db.imports.filter fun i => i.importer_path ≠ p
    exports := (db.exports.filter fun e => e.file_path ≠ p).map fun e =>
      match e.symbol_id with
      | some sid => if deadIds.contains sid then { e with symbol_id := none } else e
      | none => e }

/-- Modelled from the spec: `insertFile` (`db/queries.ts`, absent from the
sources) inserts the file record; the per-file routine always deletes the
path's rows first, so a plain append respects the path primary key. -/
def insertFile (db : Db) (f : FileRow) : Db :=
  { db with files := db.files ++ [f] }

/-- Modelled from the spec: `insertSymbol` (`db/queries.ts`, absent from
the sources) inserts one symbol row and returns the persisted
AUTOINCREMENT id. -/
def insertSymbol (db : Db) (s : SymbolInsert) : Db × Nat :=
  let id := db.nextSymbolId
  ({ db with
     symbols := db.symbols ++
       [{ id := id
          name := s.name
          file_path := s.file_path
          line_start := s.line_start
          line_end := s.line_end
          kind := s.kind
          signature := s.signature
          exported := s.exported
          is_default := s.is_default
          parent_symbol_id := s.parent_symbol_id }]
     nextSymbolId := id + 1 }, id)

/-- Modelled from the spec: `insertImport` (`db/queries.ts`, absent from
the sources). -/
def insertImport (db : Db) (i : ImportInsert) : Db :=
  let id := db.nextImportId
  { db with
    imports := db.imports ++
      [{ id := id
         importer_path := i.importer_path
         imported_path := i.imported_path
         imported_name := i.imported_name
         «alias» := i.«alias»
         is_external := i.is_external
         package_name := i.package_name
         line_number := i.line_number }]
    nextImportId := id + 1 }

/-- Modelled from the spec: `insertExport` (`db/queries.ts`, absent from
the sources). -/
def insertExport (db : Db) (e : ExportInsert) : Db :=
  let id := db.nextExportId
  { db with
    exports := db.exports ++
      [{ id := id
         file_path := e.file_path
         exported_name := e.exported_name
         local_name := e.local_name
         symbol_id := e.symbol_id
         is_reexport := e.is_reexport
         source_path := e.source_path
         line_number := e.line_number }]
    nextExportId := id + 1 }

/-- Modelled from the spec: `getStaleFiles` (`db/queries.ts`, absent from
the sources) computes the stale set against a current path-to-mtime map:
indexed rows whose stored mtime is older than the current one. -/
def getStaleFiles (db : Db) (current : List (String × Nat)) : List FileRow :=
  db.files.filter fun f =>
    match current.lookup f.path with
    | some m => f.modified_at < m
    | none => false

/-- Modelled from the spec: `getNewFiles` (`db/queries.ts`, absent from
the sources) computes the new set: paths on disk that are not indexed. -/
def getNewFiles (db : Db) (current : List (String × Nat)) : List String :=
  (current.map Prod.fst).filter fun p => !(db.files.any fun f => f.path = p)

/-- Modelled from the spec: `getDeletedFiles` (`db/queries.ts`, absent
from the sources) computes the deleted set: indexed paths absent from
disk. -/
def getDeletedFiles (db : Db) (current : List (String × Nat)) : List String :=
  (db.files.map FileRow.path).filter fun p => !(current.any fun c => c.fst = p)

/-! ## Incremental indexer (`src/indexer/indexer.ts`)

The per-file routine runs inside `db.transaction(...)`.  Any of its calls
into the store can throw (SQLite reports constraint violations, I/O
errors, a full disk, ... as exceptions), and `extractFromFile` can throw
on a parser crash.  A run is therefore parametrised by a `FaultSpec`
saying which call, if any, throws: `atOp k` makes the k-th store
operation of the per-file body throw (counting from 0: the delete is op
0, the file insert op 1, then one op per symbol/import/export insert);
`atExtraction` makes the extraction call itself throw.  `noFault` is the
normal run.  Throws are `Except.error` values carrying the connection
state at the throw site: SQLite keeps the effects of the earlier
statements of the open transaction, and only a rollback discards them. -/

inductive FaultSpec where
  | noFault
  | atExtraction
  | atOp (k : Nat)
deriving Repr, DecidableEq

/-- Does the fault hit store operation number `k`? -/
def FaultSpec.hits : FaultSpec → Nat → Bool
  | .atOp j, k => j = k
  | _, _ => false

/-- Run one store operation under the fault model: either the operation
throws (error carries the unchanged connection state) or it executes. -/
def runOp (fault : FaultSpec) (ops : Nat) (db : Db) (op : Db → Db × α) : Except Db (Db × Nat × α) :=
  if fault.hits ops then .error db
  else
    let (db', a) := op db
    .ok (db', ops + 1, a)

/-- The symbol-insert loop: insert in extraction order, resolving each
`parent_symbol_id` local ordinal through the incrementally built
ordinal-to-id map (`symbolIds` in the source, an association list here),
then record the new id under the symbol's own ordinal `i`. -/
def insertSymbolsTx (fault : FaultSpec) : List SymbolInsert → Nat → List (Nat × Nat) → Db → Nat → Except Db (Db × Nat × List (Nat × Nat))
  | [], _, m, db, ops => .ok (db, ops, m)
  | s :: rest, i, m, db, ops =>
    let parentId : Option Nat :=
      match s.parent_symbol_id with
      | some p => m.lookup p
      | none => none
    match runOp fault ops db (fun d => insertSymbol d { s with parent_symbol_id := parentId }) with
    | .error d => .error d
    | .ok (db', ops', id) => insertSymbolsTx fault rest (i + 1) (m ++ [(i, id)]) db' ops'

/-- The stored target path of one import row: a truthy, non-external
specifier is resolved on disk, and a failed resolution falls back to the
original specifier (`resolveImportPath(...) ?? resolvedPath`). -/
def storedImportPath (fs : FileSys) (projectRoot importerPath : String) (imp : ImportInsert) : Option String :=
  if jsTruthy imp.imported_path && !imp.is_external then
    match imp.imported_path with
    | some s =>
      match resolveImportPath fs s importerPath projectRoot with
      | some r => some r
      | none => some s
    | none => none
  else imp.imported_path

/-- The import-insert loop. -/
def insertImportsTx (fault : FaultSpec) (fs : FileSys) (projectRoot importerPath : String) : List ImportInsert → Db → Nat → Except Db (Db × Nat)
  | [], db, ops => .ok (db, ops)
  | imp :: rest, db, ops =>
    let resolved := storedImportPath fs projectRoot importerPath imp
    match runOp fault ops db (fun d => (insertImport d { imp with imported_path := resolved }, ())) with
    | .error d => .error d
    | .ok (db', ops', _) => insertImportsTx fault fs projectRoot importerPath rest db' ops'

/-- The export-insert loop: each export's local-ordinal symbol reference
is resolved through the ordinal-to-id map built by the symbol loop. -/
def insertExportsTx (fault : FaultSpec) (m : List (Nat × Nat)) : List ExportInsert → Db → Nat → Except Db (Db × Nat)
  | [], db, ops => .ok (db, ops)
  | e :: rest, db, ops =>
    let symbolId : Option Nat :=
      match e.symbol_id with
      | some i => m.lookup i
      | none => none
    match runOp fault ops db (fun d => (insertExport d { e with symbol_id := symbolId }, ())) with
    | .error d => .error d
    | .ok (db', ops', _) => insertExportsTx fault m rest db' ops'

/-- The `try` body of the per-file transaction callback, after the empty
content guard: extract, delete the path's old rows, insert the file
record, then the symbols, imports and exports.  On success it returns the
new store and the extraction's three row counts. -/
def perFileTx (fault : FaultSpec) (fs : FileSys) (projectRoot : String) (file : ScannedFile) (db : Db) : Except Db (Db × Nat × Nat × Nat) :=
  if fault = .atExtraction then .error db
  else
    let result := extractFromFile file.tree file.path
    match runOp fault 0 db (fun d => (deleteFileData d file.path, ())) with
    | .error d => .error d
    | .ok (db1, ops1, _) =>
      match runOp fault ops1 db1 (fun d =>
        (insertFile d
          { path := file.path
            language := file.language
            modified_at := file.mtime
            loc := countLines file.content
            has_default_export := result.hasDefaultExport }, ())) with
      | .error d => .error d
      | .ok (db2, ops2, _) =>
        match insertSymbolsTx fault result.symbols 0 [] db2 ops2 with
        | .error d => .error d
        | .ok (db3, ops3, m) =>
          match insertImportsTx fault fs projectRoot file.path result.imports db3 ops3 with
          | .error d => .error d
          | .ok (db4, ops4) =>
            match insertExportsTx fault m result.exports db4 ops4 with
            | .error d => .error d
            | .ok (db5, _) =>
              .ok (db5, result.symbols.length, result.imports.length, result.exports.length)

/-- The running state of a build/update call: the store plus the
`IndexingResult` counters and error list; `extracted` is a ghost log of
the files for which `extractFromFile` was invoked (the extraction-call
counter of the testable staleness property). -/
structure IndexSt where
  db : Db
  filesIndexed : Nat
  symbolsExtracted : Nat
  importsExtracted : Nat
  exportsExtracted : Nat
  errors : List (String × String)
  extracted : List String
deriving Repr, DecidableEq

/-- Fresh counters over a given store. -/
def IndexSt.start (db : Db) : IndexSt :=
  { db := db, filesIndexed := 0, symbolsExtracted := 0, importsExtracted := 0
    exportsExtracted := 0, errors := [], extracted := [] }

/-- The error message recorded for a file whose processing threw
(`error.message` in the source; opaque here). -/
def indexErrorMessage : String := "error"

/-- `processFile`, the per-file transaction callback of `buildIndex` and
`updateIndex` (the two closures in the source are identical): skip files
whose loaded content is empty or missing (`if (!file.content) return`),
then run the `try` body; the `catch` inside the callback records the
error and returns normally, so better-sqlite3 commits the connection
state reached at the throw site — the rollback path of
`db.transaction` is taken only when the callback itself throws, which
this callback never does. -/
def processFile (fault : FaultSpec) (fs : FileSys) (projectRoot : String) (st : IndexSt) (file : ScannedFile) : IndexSt :=
  if file.content = "" then st
  else
    match perFileTx fault fs projectRoot file st.db with
    | .ok (db', ns, ni, ne) =>
      { st with
        db := db'
        filesIndexed := st.filesIndexed + 1
        symbolsExtracted := st.symbolsExtracted + ns
        importsExtracted := st.importsExtracted + ni
        exportsExtracted := st.exportsExtracted + ne
        extracted := st.extracted ++ [file.path] }
    | .error dbAtThrow =>
      { st with
        db := dbAtThrow
        errors := st.errors ++ [(file.path, indexErrorMessage)]
        extracted := st.extracted ++ [file.path] }

/-- The file loop shared by `buildIndex` and `updateIndex`: each file is
processed with its own fault specification, and a failing file never
stops the loop. -/
def runFiles (fs : FileSys) (projectRoot : String) : IndexSt → List (ScannedFile × FaultSpec) → IndexSt
  | st, [] => st
  | st, (file, fault) :: rest =>
    runFiles fs projectRoot (processFile fault fs projectRoot st file) rest

/-- `buildIndex` after scanning: process every discovered file in order
(database creation/scanning/progress reporting are external I/O around
this loop). -/
def buildIndex (fs : FileSys) (projectRoot : String) (db : Db) (files : List (ScannedFile × FaultSpec)) : IndexSt :=
  runFiles fs projectRoot (IndexSt.start db) files

/-- `updateIndex` (fault-free run): diff the store against the current
listing, delete the rows of deleted files outright, and process only the
stale and new files; an empty work list returns early with zero counters
(the deletions are already applied). -/
def updateIndex (d : Disk) (fs : FileSys) (projectRoot : String) (db : Db) : IndexSt :=
  let current := getFileModTimes d
  let staleFiles := getStaleFiles db current
  let newFiles := getNewFiles db current
  let deletedFiles := getDeletedFiles db current
  let db1 := deletedFiles.foldl deleteFileData db
  let filesToProcess := staleFiles.map FileRow.path ++ newFiles
  if filesToProcess.isEmpty then IndexSt.start db1
  else
    let files := scanAndLoadFiles d filesToProcess
    runFiles fs projectRoot (IndexSt.start db1) (files.map fun f => (f, FaultSpec.noFault))

/-! ## Basic lemmas about the extraction passes -/

theorem nodeIsDefault_imp_nodeIsExported (par : Option TSNode) :
    nodeIsDefault par = true → nodeIsExported par = true := by
  cases par with
  | none => simp [nodeIsDefault]
  | some p =>
    simp only [nodeIsDefault, nodeIsExported, Bool.and_eq_true, decide_eq_true_eq]
    intro h
    exact h.1

theorem mem_functionSymbols_default {fp : String} {l : List (TSNode × Option TSNode)}
    {s : SymbolInsert} (h : s ∈ functionSymbols fp l) :
    s.is_default = true → s.exported = true := by
  rw [functionSymbols, List.mem_filterMap] at h
  obtain ⟨⟨fn, par⟩, _, heq⟩ := h
  cases hname : childForFieldName fn "name" with
  | none => simp [hname] at heq
  | some nameNode =>
    simp only [hname] at heq
    cases heq
    exact nodeIsDefault_imp_nodeIsExported par

theorem mem_declaratorSymbols_default {fp : String} {v : TSNode} {par : Option TSNode}
    {s : SymbolInsert} (h : s ∈ declaratorSymbols fp v par) :
    s.is_default = true → s.exported = true := by
  rw [declaratorSymbols, List.mem_filterMap] at h
  obtain ⟨d, _, heq⟩ := h
  cases hn : childForFieldName d "name" with
  | none => simp [hn] at heq
  | some nameNode =>
    cases hv : childForFieldName d "value" with
    | none => simp [hn, hv] at heq
    | some valueNode =>
      simp only [hn, hv] at heq
      by_cases harrow : (valueNode.ty = "arrow_function" || valueNode.ty = "function") = true
      · simp only [harrow, if_true] at heq
        cases heq
        simp only [Bool.and_eq_true]
        intro h'
        exact h'.1
      · simp only [Bool.not_eq_true] at harrow
        simp only [harrow, Bool.false_eq_true, if_false] at heq
        cases heq
        intro h'
        simp at h'

theorem mem_variableSymbols_default {fp : String} {l : List (TSNode × Option TSNode)}
    {s : SymbolInsert} (h : s ∈ variableSymbols fp l) :
    s.is_default = true → s.exported = true := by
  rw [variableSymbols, List.mem_flatMap] at h
  obtain ⟨⟨v, par⟩, _, hmem⟩ := h
  exact mem_declaratorSymbols_default hmem

theorem mem_classMemberSymbols_not_default {fp : String} {cid : Nat} {cls : TSNode}
    {s : SymbolInsert} (h : s ∈ classMemberSymbols fp cid cls) :
    s.is_default = false := by
  rw [classMemberSymbols] at h
  cases hb : childForFieldName cls "body" with
  | none => simp [hb] at h
  | some body =>
    simp only [hb, List.mem_append, List.mem_filterMap] at h
    rcases h with ⟨m, _, heq⟩ | ⟨f, _, heq⟩
    · cases hn : childForFieldName m "name" with
      | none => simp [hn] at heq
      | some nn => simp only [hn] at heq; cases heq; rfl
    · cases hn : childForFieldName f "name" with
      | none => simp [hn] at heq
      | some nn => simp only [hn] at heq; cases heq; rfl

theorem mem_classSymbols_default {fp : String} {s : SymbolInsert} :
    ∀ {idx : Nat} {l : List (TSNode × Option TSNode)}, s ∈ classSymbols fp idx l →
    s.is_default = true → s.exported = true := by
  intro idx l
  induction l generalizing idx with
  | nil => intro h; simp [classSymbols] at h
  | cons hd tl ih =>
    obtain ⟨cls, par⟩ := hd
    intro h
    rw [classSymbols] at h
    cases hn : childForFieldName cls "name" with
    | none =>
      rw [hn] at h
      exact ih h
    | some nameNode =>
      rw [hn] at h
      simp only [List.mem_cons, List.mem_append] at h
      rcases h with (hcls | hmem) | hrec
      · cases hcls
        exact nodeIsDefault_imp_nodeIsExported par

      · intro hdef
        rw [mem_classMemberSymbols_not_default hmem] at hdef
        cases hdef
      · exact ih hrec

theorem mem_interfaceSymbols_not_default {fp : String} {l : List (TSNode × Option TSNode)}
    {s : SymbolInsert} (h : s ∈ interfaceSymbols fp l) : s.is_default = false := by
  rw [interfaceSymbols, List.mem_filterMap] at h
  obtain ⟨⟨n, par⟩, _, heq⟩ := h
  cases hn : childForFieldName n "name" with
  | none => simp [hn] at heq
  | some nn => simp only [hn] at heq; cases heq; rfl

theorem mem_typeAliasSymbols_not_default {fp : String} {l : List (TSNode × Option TSNode)}
    {s : SymbolInsert} (h : s ∈ typeAliasSymbols fp l) : s.is_default = false := by
  rw [typeAliasSymbols, List.mem_filterMap] at h
  obtain ⟨⟨n, par⟩, _, heq⟩ := h
  cases hn : childForFieldName n "name" with
  | none => simp [hn] at heq
  | some nn => simp only [hn] at heq; cases heq; rfl

theorem mem_enumSymbols_not_default {fp : String} {l : List (TSNode × Option TSNode)}
    {s : SymbolInsert} (h : s ∈ enumSymbols fp l) : s.is_default = false := by
  rw [enumSymbols, List.mem_filterMap] at h
  obtain ⟨⟨n, par⟩, _, heq⟩ := h
  cases hn : childForFieldName n "name" with
  | none => simp [hn] at heq
  | some nn => simp only [hn] at heq; cases heq; rfl

theorem mem_extractSymbols_default {root : TSNode} {fp : String} {s : SymbolInsert}
    (h : s ∈ extractSymbols root fp) : s.is_default = true → s.exported = true := by
  rw [extractSymbols] at h
  simp only [List.mem_append] at h
  rcases h with ((((hf | hv) | hc) | hi) | ht) | he
  · exact mem_functionSymbols_default hf
  · exact mem_variableSymbols_default hv
  · exact mem_classSymbols_default hc
  · intro hd; rw [mem_interfaceSymbols_not_default hi] at hd; cases hd
  · intro hd; rw [mem_typeAliasSymbols_not_default ht] at hd; cases hd
  · intro hd; rw [mem_enumSymbols_not_default he] at hd; cases hd

/-- Every row an import statement produces carries the classification and
derived fields of the statement's (quote-stripped) specifier: external iff
the specifier starts with neither `.` nor `/`; `imported_path` set exactly
for internal rows; `package_name` set exactly for external rows. -/
theorem mem_importRowsOfStatement {fp : String} {stmt : TSNode} {row : ImportInsert}
    (h : row ∈ importRowsOfStatement fp stmt) :
    ∃ src, childForFieldName stmt "source" = some src ∧
      (row.is_external =
        (!(jsStartsWith "." (stripQuotes src.text)) && !(jsStartsWith "/" (stripQuotes src.text)))
      ∧ row.imported_path = (if row.is_external then none else some (stripQuotes src.text))
      ∧ row.package_name =
          (if row.is_external then some (getPackageName (stripQuotes src.text)) else none)
      ∧ row.importer_path = fp ∧ row.line_number = stmt.startRow + 1) := by
  rw [importRowsOfStatement] at h
  cases hsrc : childForFieldName stmt "source" with
  | none => rw [hsrc] at h; simp at h
  | some src =>
    rw [hsrc] at h
    refine ⟨src, rfl, ?_⟩
    cases hic : findChild stmt "import_clause" with
    | some importClause =>
      rw [hic] at h
      simp only [List.mem_append] at h
      rcases h with (hdef | hnamed) | hns
      · cases hdi : findChild importClause "identifier" with
        | none => rw [hdi] at hdef; simp at hdef
        | some defaultImport =>
          rw [hdi] at hdef
          simp only [List.mem_singleton] at hdef
          subst hdef
          exact ⟨rfl, rfl, rfl, rfl, rfl⟩
      · cases hni : findChild importClause "named_imports" with
        | none => rw [hni] at hnamed; simp at hnamed
        | some namedImports =>
          rw [hni] at hnamed
          rw [List.mem_filterMap] at hnamed
          obtain ⟨spec, _, heq⟩ := hnamed
          cases hn : childForFieldName spec "name" with
          | none => rw [hn] at heq; cases heq
          | some nameNode =>
            rw [hn] at heq
            cases heq
            exact ⟨rfl, rfl, rfl, rfl, rfl⟩
      · cases hnsi : findChild importClause "namespace_import" with
        | none => rw [hnsi] at hns; simp at hns
        | some namespaceImport =>
          rw [hnsi] at hns
          cases hid : findChild namespaceImport "identifier" with
          | none => simp [hid] at hns
          | some aliasNode =>
            simp only [hid, List.mem_singleton] at hns
            subst hns
            exact ⟨rfl, rfl, rfl, rfl, rfl⟩
    | none =>
      rw [hic] at h
      simp only [List.mem_singleton] at h
      subst h
      exact ⟨rfl, rfl, rfl, rfl, rfl⟩

/-- Lift of `mem_importRowsOfStatement` to `extractImports`. -/
theorem mem_extractImports {root : TSNode} {fp : String} {row : ImportInsert}
    (h : row ∈ extractImports root fp) :
    ∃ stmt src, childForFieldName stmt "source" = some src ∧
      (row.is_external =
        (!(jsStartsWith "." (stripQuotes src.text)) && !(jsStartsWith "/" (stripQuotes src.text)))
      ∧ row.imported_path = (if row.is_external then none else some (stripQuotes src.text))
      ∧ row.package_name =
          (if row.is_external then some (getPackageName (stripQuotes src.text)) else none)
      ∧ row.importer_path = fp) := by
  rw [extractImports, List.mem_flatMap] at h
  obtain ⟨⟨stmt, par⟩, _, hmem⟩ := h
  obtain ⟨src, hsrc, h1, h2, h3, h4, _⟩ := mem_importRowsOfStatement hmem
  exact ⟨stmt, src, hsrc, h1, h2, h3, h4⟩

theorem splitCharList_ne_nil (c : Char) (l : List Char) : splitCharList c l ≠ [] := by
  induction l with
  | nil => simp [splitCharList]
  | cons ch rest ih =>
    rw [splitCharList]
    by_cases hc : ch = c
    · simp [hc]
    · simp only [if_neg hc]
      cases hr : splitCharList c rest with
      | nil => simp
      | cons h t => simp

/-- `getPackageName` agrees with the spec phrasing: the first two path
segments of a scope-prefixed specifier, otherwise the first segment. -/
theorem getPackageName_eq_spec (s : String) :
    getPackageName s =
      String.intercalate "/" ((jsSplit '/' s).take (if jsStartsWith "@" s then 2 else 1)) := by
  rw [getPackageName]
  by_cases h : jsStartsWith "@" s = true
  · rw [if_pos h, if_pos h]
  · simp only [Bool.not_eq_true] at h
    rw [if_neg (by simp [h]), if_neg (by simp [h])]
    cases hs : jsSplit '/' s with
    | nil =>
      exfalso
      rw [jsSplit] at hs
      exact splitCharList_ne_nil '/' s.data (by simpa using hs)
    | cons hd tl => rfl

/-! ## Structure of the symbol list: parent ordinals (support for the
one-level nesting invariant) -/

theorem mem_functionSymbols_parent {fp : String} {l : List (TSNode × Option TSNode)}
    {s : SymbolInsert} (h : s ∈ functionSymbols fp l) : s.parent_symbol_id = none := by
  rw [functionSymbols, List.mem_filterMap] at h
  obtain ⟨⟨fn, par⟩, _, heq⟩ := h
  cases hn : childForFieldName fn "name" with
  | none => simp [hn] at heq
  | some nn => simp only [hn] at heq; cases heq; rfl

theorem mem_declaratorSymbols_parent {fp : String} {v : TSNode} {par : Option TSNode}
    {s : SymbolInsert} (h : s ∈ declaratorSymbols fp v par) : s.parent_symbol_id = none := by
  rw [declaratorSymbols, List.mem_filterMap] at h
  obtain ⟨d, _, heq⟩ := h
  cases hn : childForFieldName d "name" with
  | none => simp [hn] at heq
  | some nameNode =>
    cases hv : childForFieldName d "value" with
    | none => simp [hn, hv] at heq
    | some valueNode =>
      simp only [hn, hv] at heq
      by_cases harrow : (valueNode.ty = "arrow_function" || valueNode.ty = "function") = true
      · simp only [harrow, if_true] at heq; cases heq; rfl
      · simp only [Bool.not_eq_true] at harrow
        simp only [harrow, Bool.false_eq_true, if_false] at heq; cases heq; rfl

theorem mem_variableSymbols_parent {fp : String} {l : List (TSNode × Option TSNode)}
    {s : SymbolInsert} (h : s ∈ variableSymbols fp l) : s.parent_symbol_id = none := by
  rw [variableSymbols, List.mem_flatMap] at h
  obtain ⟨⟨v, par⟩, _, hmem⟩ := h
  exact mem_declaratorSymbols_parent hmem

theorem mem_interfaceSymbols_parent {fp : String} {l : List (TSNode × Option TSNode)}
    {s : SymbolInsert} (h : s ∈ interfaceSymbols fp l) : s.parent_symbol_id = none := by
  rw [interfaceSymbols, List.mem_filterMap] at h
  obtain ⟨⟨n, par⟩, _, heq⟩ := h
  cases hn : childForFieldName n "name" with
  | none => simp [hn] at heq
  | some nn => simp only [hn] at heq; cases heq; rfl

theorem mem_typeAliasSymbols_parent {fp : String} {l : List (TSNode × Option TSNode)}
    {s : SymbolInsert} (h : s ∈ typeAliasSymbols fp l) : s.parent_symbol_id = none := by
  rw [typeAliasSymbols, List.mem_filterMap] at h
  obtain ⟨⟨n, par⟩, _, heq⟩ := h
  cases hn : childForFieldName n "name" with
  | none => simp [hn] at heq
  | some nn => simp only [hn] at heq; cases heq; rfl

theorem mem_enumSymbols_parent {fp : String} {l : List (TSNode × Option TSNode)}
    {s : SymbolInsert} (h : s ∈ enumSymbols fp l) : s.parent_symbol_id = none := by
  rw [enumSymbols, List.mem_filterMap] at h
  obtain ⟨⟨n, par⟩, _, heq⟩ := h
  cases hn : childForFieldName n "name" with
  | none => simp [hn] at heq
  | some nn => simp only [hn] at heq; cases heq; rfl

theorem mem_classMemberSymbols_shape {fp : String} {cid : Nat} {cls : TSNode}
    {s : SymbolInsert} (h : s ∈ classMemberSymbols fp cid cls) :
    (s.kind = "method" ∨ s.kind = "property") ∧ s.parent_symbol_id = some cid := by
  rw [classMemberSymbols] at h
  cases hb : childForFieldName cls "body" with
  | none => simp [hb] at h
  | some body =>
    simp only [hb, List.mem_append, List.mem_filterMap] at h
    rcases h with ⟨m, _, heq⟩ | ⟨f, _, heq⟩
    · cases hn : childForFieldName m "name" with
      | none => simp [hn] at heq
      | some nn => simp only [hn] at heq; cases heq; exact ⟨Or.inl rfl, rfl⟩
    · cases hn : childForFieldName f "name" with
      | none => simp [hn] at heq
      | some nn => simp only [hn] at heq; cases heq; exact ⟨Or.inr rfl, rfl⟩

/-- Positional invariant of the class segment: a symbol at segment
position `j` either has no parent ordinal, or it is a method/property
whose parent ordinal `p` satisfies `idx ≤ p < idx + j` and points at a
`class` symbol sitting at segment position `p - idx` (the hypothesis
`idx` is the global ordinal of the segment's first element). -/
theorem classSymbols_getElem {fp : String} :
    ∀ {l : List (TSNode × Option TSNode)} {idx j : Nat} {s : SymbolInsert},
    (classSymbols fp idx l)[j]? = some s →
    s.parent_symbol_id = none ∨
      ∃ p, s.parent_symbol_id = some p ∧ (s.kind = "method" ∨ s.kind = "property") ∧
        idx ≤ p ∧ p < idx + j ∧
        ∃ c, (classSymbols fp idx l)[p - idx]? = some c ∧ c.kind = "class" := by
  intro l
  induction l with
  | nil => intro idx j s h; rw [classSymbols] at h; simp at h
  | cons hd tl ih =>
    obtain ⟨cls, par⟩ := hd
    intro idx j s h
    rw [classSymbols] at h
    cases hn : childForFieldName cls "name" with
    | none =>
      rw [hn] at h
      rcases ih h with hnone | ⟨p, hp, hk, hle, hlt, c, hc, hck⟩
      · exact Or.inl hnone
      · refine Or.inr ⟨p, hp, hk, hle, hlt, c, ?_, hck⟩
        rw [classSymbols, hn]
        exact hc
    | some nameNode =>
      rw [hn] at h
      by_cases hjm : j < 1 + (classMemberSymbols fp idx cls).length
      · -- inside the class-plus-members block
        rw [List.getElem?_append_left (by simp only [List.length_cons]; omega)] at h
        cases j with
        | zero =>
          rw [List.getElem?_cons_zero] at h
          cases h
          exact Or.inl rfl
        | succ j' =>
          rw [List.getElem?_cons_succ] at h
          have hmem : s ∈ classMemberSymbols fp idx cls := List.getElem?_mem h
          obtain ⟨hk, hp⟩ := mem_classMemberSymbols_shape hmem
          refine Or.inr ⟨idx, hp, hk, Nat.le_refl idx, by omega, classSymbolOf fp cls par nameNode, ?_, rfl⟩
          rw [Nat.sub_self]
          simp [classSymbols, hn]
      · -- inside the recursive tail
        have hge : ((classSymbolOf fp cls par nameNode :: classMemberSymbols fp idx cls)).length ≤ j := by
          simp only [List.length_cons]
          omega
        rw [List.getElem?_append_right hge] at h
        simp only [List.length_cons] at h
        rcases ih h with hnone | ⟨p, hp, hk, hle, hlt, c, hc, hck⟩
        · exact Or.inl hnone
        · refine Or.inr ⟨p, hp, hk, by omega, by omega, c, ?_, hck⟩
          simp only [classSymbols, hn]
          rw [List.getElem?_append_right (by simp only [List.length_cons]; omega)]
          simp only [List.length_cons]
          have hsub : p - idx - ((classMemberSymbols fp idx cls).length + 1)
              = p - (idx + 1 + (classMemberSymbols fp idx cls).length) := by omega
          rw [hsub]
          exact hc

/-- The emitted symbol sequence: a parent ordinal appears only on
method/property symbols, is strictly smaller than the member's own
ordinal, and indexes a `class` symbol of the same pass. -/
theorem extractSymbols_parent_invariant {root : TSNode} {fp : String} {i p : Nat}
    {s : SymbolInsert} (h : (extractSymbols root fp)[i]? = some s)
    (hp : s.parent_symbol_id = some p) :
    (s.kind = "method" ∨ s.kind = "property") ∧ p < i ∧
      ∃ c, (extractSymbols root fp)[p]? = some c ∧ c.kind = "class" := by
  have hL : extractSymbols root fp =
      (functionSymbols fp (findAllOfType "function_declaration" none root)
        ++ variableSymbols fp (findAllOfType "lexical_declaration" none root
            ++ findAllOfType "variable_declaration" none root))
      ++ (classSymbols fp
            (functionSymbols fp (findAllOfType "function_declaration" none root)
              ++ variableSymbols fp (findAllOfType "lexical_declaration" none root
                  ++ findAllOfType "variable_declaration" none root)).length
            (findAllOfType "class_declaration" none root)
          ++ (interfaceSymbols fp (findAllOfType "interface_declaration" none root)
              ++ (typeAliasSymbols fp (findAllOfType "type_alias_declaration" none root)
                  ++ enumSymbols fp (findAllOfType "enum_declaration" none root)))) := by
    unfold extractSymbols
    simp only [List.append_assoc]
  set pre := functionSymbols fp (findAllOfType "function_declaration" none root)
    ++ variableSymbols fp (findAllOfType "lexical_declaration" none root
        ++ findAllOfType "variable_declaration" none root) with hpre
  set classes := classSymbols fp pre.length (findAllOfType "class_declaration" none root) with hclasses
  set post := interfaceSymbols fp (findAllOfType "interface_declaration" none root)
    ++ (typeAliasSymbols fp (findAllOfType "type_alias_declaration" none root)
        ++ enumSymbols fp (findAllOfType "enum_declaration" none root)) with hpost
  rw [hL] at h
  by_cases hia : i < pre.length
  · -- the function/variable segments never set a parent ordinal
    rw [List.getElem?_append_left hia] at h
    have hmem := List.getElem?_mem h
    rw [hpre, List.mem_append] at hmem
    rcases hmem with hf | hv
    · rw [mem_functionSymbols_parent hf] at hp; cases hp
    · rw [mem_variableSymbols_parent hv] at hp; cases hp
  · have hia' : pre.length ≤ i := Nat.le_of_not_lt hia
    rw [List.getElem?_append_right hia'] at h
    by_cases hib : i - pre.length < classes.length
    · -- the class segment
      rw [List.getElem?_append_left hib] at h
      rcases classSymbols_getElem h with hnone | ⟨p', hp', hk, hle, hlt, c, hc, hck⟩
      · rw [hnone] at hp; cases hp
      · rw [hp'] at hp
        cases hp
        have hplen : p - pre.length < classes.length := by
          have := List.getElem?_mem hc
          by_contra hcon
          rw [List.getElem?_eq_none (Nat.le_of_not_lt hcon)] at hc
          cases hc
        refine ⟨hk, by omega, c, ?_, hck⟩
        rw [hL, List.getElem?_append_right (show pre.length ≤ p from hle),
          List.getElem?_append_left hplen]
        exact hc
    · -- the interface/type/enum segments never set a parent ordinal
      rw [List.getElem?_append_right (Nat.le_of_not_lt hib)] at h
      have hmem := List.getElem?_mem h
      rw [hpost] at hmem
      simp only [List.mem_append] at hmem
      rcases hmem with hi | ht | he
      · rw [mem_interfaceSymbols_parent hi] at hp; cases hp
      · rw [mem_typeAliasSymbols_parent ht] at hp; cases hp
      · rw [mem_enumSymbols_parent he] at hp; cases hp

/-! ## Characterisation of the fault-free per-file run -/

/-- The symbol row inserted for a payload under a given AUTOINCREMENT id
(`insertSymbol` unfolds to an append of this row). -/
def symRowOf (s : SymbolInsert) (id : Nat) : SymbolRow :=
  { id := id
    name := s.name
    file_path := s.file_path
    line_start := s.line_start
    line_end := s.line_end
    kind := s.kind
    signature := s.signature
    exported := s.exported
    is_default := s.is_default
    parent_symbol_id := s.parent_symbol_id }

/-- The import row inserted for a payload under a given id. -/
def impRowOf (i : ImportInsert) (id : Nat) : ImportRow :=
  { id := id
    importer_path := i.importer_path
    imported_path := i.imported_path
    imported_name := i.imported_name
    «alias» := i.«alias»
    is_external := i.is_external
    package_name := i.package_name
    line_number := i.line_number }

/-- The export row inserted for a payload under a given id. -/
def expRowOf (e : ExportInsert) (id : Nat) : ExportRow :=
  { id := id
    file_path := e.file_path
    exported_name := e.exported_name
    local_name := e.local_name
    symbol_id := e.symbol_id
    is_reexport := e.is_reexport
    source_path := e.source_path
    line_number := e.line_number }

/-- The ordinal-to-id association built by a fault-free symbol loop that
starts at ordinal `i` with next id `nid` and inserts `n` symbols. -/
def mkSymbolAssoc : Nat → Nat → Nat → List (Nat × Nat)
  | _, _, 0 => []
  | i, nid, n + 1 => (i, nid) :: mkSymbolAssoc (i + 1) (nid + 1) n

/-- The symbol rows appended by a fault-free symbol loop. -/
def mkSymbolRows : List SymbolInsert → Nat → List (Nat × Nat) → Nat → List SymbolRow
  | [], _, _, _ => []
  | s :: rest, i, m, nid =>
    symRowOf { s with parent_symbol_id := s.parent_symbol_id.bind m.lookup } nid
      :: mkSymbolRows rest (i + 1) (m ++ [(i, nid)]) (nid + 1)

/-- The import rows appended by a fault-free import loop. -/
def mkImportRows (fs : FileSys) (projectRoot importerPath : String) : List ImportInsert → Nat → List ImportRow
  | [], _ => []
  | imp :: rest, nid =>
    impRowOf { imp with imported_path := storedImportPath fs projectRoot importerPath imp } nid
      :: mkImportRows fs projectRoot importerPath rest (nid + 1)

/-- The export rows appended by a fault-free export loop resolving
through the ordinal-to-id association `m`. -/
def mkExportRows (m : List (Nat × Nat)) : List ExportInsert → Nat → List ExportRow
  | [], _ => []
  | e :: rest, nid =>
    expRowOf { e with symbol_id := e.symbol_id.bind m.lookup } nid
      :: mkExportRows m rest (nid + 1)

theorem FaultSpec.hits_noFault (k : Nat) : FaultSpec.noFault.hits k = false := rfl

theorem insertSymbolsTx_noFault (l : List SymbolInsert) :
    ∀ (i : Nat) (m : List (Nat × Nat)) (db : Db) (ops : Nat),
    insertSymbolsTx .noFault l i m db ops =
      .ok ({ db with
              symbols := db.symbols ++ mkSymbolRows l i m db.nextSymbolId
              nextSymbolId := db.nextSymbolId + l.length },
        ops + l.length, m ++ mkSymbolAssoc i db.nextSymbolId l.length) := by
  induction l with
  | nil =>
    intro i m db ops
    simp [insertSymbolsTx, mkSymbolRows, mkSymbolAssoc]
  | cons s rest ih =>
    intro i m db ops
    rw [insertSymbolsTx, runOp]
    simp only [FaultSpec.hits_noFault, Bool.false_eq_true, if_false]
    rw [ih]
    have hparent :
        (match s.parent_symbol_id with
          | some p => m.lookup p
          | none => none) = s.parent_symbol_id.bind m.lookup := by
      cases s.parent_symbol_id <;> rfl
    simp only [insertSymbol, mkSymbolRows, mkSymbolAssoc, hparent, symRowOf,
      Except.ok.injEq, Prod.mk.injEq, Db.mk.injEq, List.append_assoc, List.cons_append,
      List.singleton_append, List.length_cons, List.nil_append, true_and, and_true]
    omega

theorem insertImportsTx_noFault (fs : FileSys) (projectRoot importerPath : String)
    (l : List ImportInsert) :
    ∀ (db : Db) (ops : Nat),
    insertImportsTx .noFault fs projectRoot importerPath l db ops =
      .ok ({ db with
              imports := db.imports ++ mkImportRows fs projectRoot importerPath l db.nextImportId
              nextImportId := db.nextImportId + l.length },
        ops + l.length) := by
  induction l with
  | nil =>
    intro db ops
    simp [insertImportsTx, mkImportRows]
  | cons imp rest ih =>
    intro db ops
    rw [insertImportsTx, runOp]
    simp only [FaultSpec.hits_noFault, Bool.false_eq_true, if_false]
    rw [ih]
    simp only [insertImport, mkImportRows, impRowOf, Except.ok.injEq, Prod.mk.injEq,
      Db.mk.injEq, List.append_assoc, List.cons_append, List.singleton_append,
      List.length_cons, List.nil_append, true_and, and_true]
    omega

theorem insertExportsTx_noFault (m : List (Nat × Nat)) (l : List ExportInsert) :
    ∀ (db : Db) (ops : Nat),
    insertExportsTx .noFault m l db ops =
      .ok ({ db with
              exports := db.exports ++ mkExportRows m l db.nextExportId
              nextExportId := db.nextExportId + l.length },
        ops + l.length) := by
  induction l with
  | nil =>
    intro db ops
    simp [insertExportsTx, mkExportRows]
  | cons e rest ih =>
    intro db ops
    rw [insertExportsTx, runOp]
    simp only [FaultSpec.hits_noFault, Bool.false_eq_true, if_false]
    rw [ih]
    have hsym :
        (match e.symbol_id with
          | some i => m.lookup i
          | none => none) = e.symbol_id.bind m.lookup := by
      cases e.symbol_id <;> rfl
    simp only [insertExport, mkExportRows, hsym, expRowOf, Except.ok.injEq, Prod.mk.injEq,
      Db.mk.injEq, List.append_assoc, List.cons_append, List.singleton_append,
      List.length_cons, List.nil_append, true_and, and_true]
    omega

/-- The file row inserted by the per-file routine. -/
def fileRowOf (file : ScannedFile) (hasDefault : Bool) : FileRow :=
  { path := file.path
    language := file.language
    modified_at := file.mtime
    loc := countLines file.content
    has_default_export := hasDefault }

/-- The store after a fault-free per-file run: previous rows of the path
deleted, then the file row, the symbol rows (parent ordinals remapped
through the pass's ordinal-to-id association), the import rows (target
paths resolved) and the export rows appended, with each AUTOINCREMENT
counter advanced by the number of inserted rows. -/
def applyFile (fs : FileSys) (projectRoot : String) (file : ScannedFile) (db : Db) : Db :=
  let res := extractFromFile file.tree file.path
  let dbd := deleteFileData db file.path
  { files := dbd.files ++ [fileRowOf file res.hasDefaultExport]
    symbols := dbd.symbols ++ mkSymbolRows res.symbols 0 [] dbd.nextSymbolId
    imports := dbd.imports ++ mkImportRows fs projectRoot file.path res.imports dbd.nextImportId
    exports := dbd.exports ++
      mkExportRows (mkSymbolAssoc 0 dbd.nextSymbolId res.symbols.length) res.exports dbd.nextExportId
    nextSymbolId := dbd.nextSymbolId + res.symbols.length
    nextImportId := dbd.nextImportId + res.imports.length
    nextExportId := dbd.nextExportId + res.exports.length }

theorem perFileTx_noFault (fs : FileSys) (projectRoot : String) (file : ScannedFile) (db : Db) :
    perFileTx .noFault fs projectRoot file db =
      .ok (applyFile fs projectRoot file db,
        (extractFromFile file.tree file.path).symbols.length,
        (extractFromFile file.tree file.path).imports.length,
        (extractFromFile file.tree file.path).exports.length) := by
  rw [perFileTx]
  rw [if_neg (by simp)]
  simp only [runOp, FaultSpec.hits_noFault, Bool.false_eq_true, if_false,
    insertSymbolsTx_noFault, insertImportsTx_noFault, insertExportsTx_noFault]
  simp only [insertFile, applyFile, fileRowOf, Except.ok.injEq, Prod.mk.injEq, Db.mk.injEq,
    List.nil_append, true_and, and_true]

theorem processFile_noFault (fs : FileSys) (projectRoot : String) (st : IndexSt)
    (file : ScannedFile) (h : file.content ≠ "") :
    processFile .noFault fs projectRoot st file =
      { st with
        db := applyFile fs projectRoot file st.db
        filesIndexed := st.filesIndexed + 1
        symbolsExtracted := st.symbolsExtracted + (extractFromFile file.tree file.path).symbols.length
        importsExtracted := st.importsExtracted + (extractFromFile file.tree file.path).imports.length
        exportsExtracted := st.exportsExtracted + (extractFromFile file.tree file.path).exports.length
        extracted := st.extracted ++ [file.path] } := by
  rw [processFile, if_neg h]
  simp only [perFileTx_noFault]

/-! ## Every extracted row names its own file -/

theorem mem_declaratorSymbols_file_path {fp : String} {v : TSNode} {par : Option TSNode}
    {s : SymbolInsert} (h : s ∈ declaratorSymbols fp v par) : s.file_path = fp := by
  rw [declaratorSymbols, List.mem_filterMap] at h
  obtain ⟨d, _, heq⟩ := h
  cases hn : childForFieldName d "name" with
  | none => simp [hn] at heq
  | some nameNode =>
    cases hvv : childForFieldName d "value" with
    | none => simp [hn, hvv] at heq
    | some valueNode =>
      simp only [hn, hvv] at heq
      by_cases harrow : (valueNode.ty = "arrow_function" || valueNode.ty = "function") = true
      · simp only [harrow, if_true] at heq; cases heq; rfl
      · simp only [Bool.not_eq_true] at harrow
        simp only [harrow, Bool.false_eq_true, if_false] at heq; cases heq; rfl

theorem mem_extractSymbols_file_path {root : TSNode} {fp : String} {s : SymbolInsert}
    (h : s ∈ extractSymbols root fp) : s.file_path = fp := by
  rw [extractSymbols] at h
  simp only [List.mem_append] at h
  have hcls : ∀ {idx : Nat} {l : List (TSNode × Option TSNode)},
      s ∈ classSymbols fp idx l → s.file_path = fp := by
    intro idx l
    induction l generalizing idx with
    | nil => intro hx; simp [classSymbols] at hx
    | cons hd tl ih =>
      obtain ⟨cls, par⟩ := hd
      intro hx
      rw [classSymbols] at hx
      cases hn : childForFieldName cls "name" with
      | none => rw [hn] at hx; exact ih hx
      | some nameNode =>
        rw [hn] at hx
        simp only [List.cons_append, List.mem_cons, List.mem_append] at hx
        rcases hx with hc | hm | hr
        · cases hc; rfl
        · rw [classMemberSymbols] at hm
          cases hb : childForFieldName cls "body" with
          | none => simp [hb] at hm
          | some body =>
            simp only [hb, List.mem_append, List.mem_filterMap] at hm
            rcases hm with ⟨n, _, heq⟩ | ⟨n, _, heq⟩ <;>
              · cases hnn : childForFieldName n "name" with
                | none => simp [hnn] at heq
                | some nn => simp only [hnn] at heq; cases heq; rfl
        · exact ih hr
  rcases h with ((((hf | hv) | hc) | hi) | ht) | he
  · rw [functionSymbols, List.mem_filterMap] at hf
    obtain ⟨⟨fn, par⟩, _, heq⟩ := hf
    cases hn : childForFieldName fn "name" with
    | none => simp [hn] at heq
    | some nn => simp only [hn] at heq; cases heq; rfl
  · rw [variableSymbols, List.mem_flatMap] at hv
    obtain ⟨⟨v, par⟩, _, hm⟩ := hv
    exact mem_declaratorSymbols_file_path hm
  · exact hcls hc
  · rw [interfaceSymbols, List.mem_filterMap] at hi
    obtain ⟨⟨n, par⟩, _, heq⟩ := hi
    cases hn : childForFieldName n "name" with
    | none => simp [hn] at heq
    | some nn => simp only [hn] at heq; cases heq; rfl
  · rw [typeAliasSymbols, List.mem_filterMap] at ht
    obtain ⟨⟨n, par⟩, _, heq⟩ := ht
    cases hn : childForFieldName n "name" with
    | none => simp [hn] at heq
    | some nn => simp only [hn] at heq; cases heq; rfl
  · rw [enumSymbols, List.mem_filterMap] at he
    obtain ⟨⟨n, par⟩, _, heq⟩ := he
    cases hn : childForFieldName n "name" with
    | none => simp [hn] at heq
    | some nn => simp only [hn] at heq; cases heq; rfl

theorem mem_extractImports_importer {root : TSNode} {fp : String} {row : ImportInsert}
    (h : row ∈ extractImports root fp) : row.importer_path = fp := by
  obtain ⟨_, _, _, _, _, _, h4⟩ := mem_extractImports h
  exact h4

theorem mem_exportRowsOfStatement_file_path {fp : String} {symbols : List SymbolInsert}
    {stmt : TSNode} {row : ExportInsert} (h : row ∈ exportRowsOfStatement fp symbols stmt) :
    row.file_path = fp := by
  rw [exportRowsOfStatement] at h
  by_cases hd : hasChildOfType stmt "default" = true
  · simp only [hd, if_true, List.mem_singleton] at h
    subst h; rfl
  · simp only [Bool.not_eq_true] at hd
    simp only [hd, Bool.false_eq_true, if_false] at h
    cases hec : findChild stmt "export_clause" with
    | some exportClause =>
      rw [hec] at h
      rw [List.mem_filterMap] at h
      obtain ⟨spec, _, heq⟩ := h
      cases hn : childForFieldName spec "name" with
      | none => rw [hn] at heq; cases heq
      | some nameNode => rw [hn] at heq; cases heq; rfl
    | none =>
      rw [hec] at h
      by_cases hns : ((findChild stmt "namespace_export").isSome || hasChildOfType stmt "*") = true
      · simp only [hns, if_true, List.mem_singleton] at h
        subst h; rfl
      · simp only [Bool.not_eq_true] at hns
        simp only [hns, Bool.false_eq_true, if_false] at h
        cases hdecl : childForFieldName stmt "declaration" with
        | none => rw [hdecl] at h; simp at h
        | some declaration =>
          rw [hdecl] at h
          cases hidx : symbols.findIdx? (fun s =>
              s.file_path = fp && s.line_start = declaration.startRow + 1) with
          | none => simp [hidx] at h
          | some idx =>
            simp only [hidx] at h
            cases hget : symbols[idx]? with
            | none => simp [hget] at h
            | some sym =>
              simp only [hget, List.mem_singleton] at h
              subst h; rfl

theorem mem_extractExports_file_path {root : TSNode} {fp : String}
    {symbols : List SymbolInsert} {row : ExportInsert}
    (h : row ∈ extractExports root fp symbols) : row.file_path = fp := by
  rw [extractExports, List.mem_flatMap] at h
  obtain ⟨⟨stmt, par⟩, _, hm⟩ := h
  exact mem_exportRowsOfStatement_file_path hm

/-! ## Structure of the inserted row lists -/

theorem mkSymbolRows_length (l : List SymbolInsert) :
    ∀ i m nid, (mkSymbolRows l i m nid).length = l.length := by
  induction l with
  | nil => intro i m nid; rfl
  | cons s rest ih => intro i m nid; simp [mkSymbolRows, ih]

theorem mkImportRows_length (fs : FileSys) (pr ip : String) (l : List ImportInsert) :
    ∀ nid, (mkImportRows fs pr ip l nid).length = l.length := by
  induction l with
  | nil => intro nid; rfl
  | cons imp rest ih => intro nid; simp [mkImportRows, ih]

theorem mkExportRows_length (m : List (Nat × Nat)) (l : List ExportInsert) :
    ∀ nid, (mkExportRows m l nid).length = l.length := by
  induction l with
  | nil => intro nid; rfl
  | cons e rest ih => intro nid; simp [mkExportRows, ih]

theorem mkImportRows_getElem (fs : FileSys) (pr ip : String) (l : List ImportInsert) :
    ∀ nid j imp, l[j]? = some imp →
      (mkImportRows fs pr ip l nid)[j]? =
        some (impRowOf { imp with imported_path := storedImportPath fs pr ip imp } (nid + j)) := by
  induction l with
  | nil => intro nid j imp h; simp at h
  | cons hd tl ih =>
    intro nid j imp h
    cases j with
    | zero =>
      simp only [List.getElem?_cons_zero, Option.some.injEq] at h
      subst h
      simp [mkImportRows]
    | succ j' =>
      simp only [List.getElem?_cons_succ] at h
      rw [mkImportRows, List.getElem?_cons_succ, ih (nid + 1) j' imp h]
      refine congrArg _ (congrArg _ ?_)
      omega

theorem mkSymbolRows_getElem (l : List SymbolInsert) :
    ∀ i m nid j s, l[j]? = some s →
      (mkSymbolRows l i m nid)[j]? =
        some (symRowOf { s with
          parent_symbol_id :=
            s.parent_symbol_id.bind (m ++ mkSymbolAssoc i nid j).lookup } (nid + j)) := by
  induction l with
  | nil => intro i m nid j s h; simp at h
  | cons hd tl ih =>
    intro i m nid j s h
    cases j with
    | zero =>
      simp only [List.getElem?_cons_zero, Option.some.injEq] at h
      subst h
      simp [mkSymbolRows, mkSymbolAssoc]
    | succ j' =>
      simp only [List.getElem?_cons_succ] at h
      rw [mkSymbolRows, List.getElem?_cons_succ, ih (i + 1) (m ++ [(i, nid)]) (nid + 1) j' s h]
      rw [List.append_assoc]
      rw [show nid + 1 + j' = nid + (j' + 1) by omega]
      rfl

theorem mkExportRows_getElem (m : List (Nat × Nat)) (l : List ExportInsert) :
    ∀ nid j e, l[j]? = some e →
      (mkExportRows m l nid)[j]? =
        some (expRowOf { e with symbol_id := e.symbol_id.bind m.lookup } (nid + j)) := by
  induction l with
  | nil => intro nid j e h; simp at h
  | cons hd tl ih =>
    intro nid j e h
    cases j with
    | zero =>
      simp only [List.getElem?_cons_zero, Option.some.injEq] at h
      subst h
      simp [mkExportRows]
    | succ j' =>
      simp only [List.getElem?_cons_succ] at h
      rw [mkExportRows, List.getElem?_cons_succ, ih (nid + 1) j' e h]
      rw [show nid + 1 + j' = nid + (j' + 1) by omega]

theorem mkSymbolAssoc_lookup :
    ∀ (n i nid p : Nat), i ≤ p → p < i + n →
      (mkSymbolAssoc i nid n).lookup p = some (nid + (p - i)) := by
  intro n
  induction n with
  | zero => intro i nid p h1 h2; omega
  | succ n' ih =>
    intro i nid p h1 h2
    rw [mkSymbolAssoc]
    by_cases hpi : p = i
    · subst hpi
      simp [List.lookup]
    · rw [List.lookup]
      have hbeq : (p == i) = false := by
        simp [hpi]
      rw [hbeq]
      rw [ih (i + 1) (nid + 1) p (by omega) (by omega)]
      simp only [Option.some.injEq]
      omega

theorem mkSymbolRows_ids (l : List SymbolInsert) :
    ∀ i m nid, (mkSymbolRows l i m nid).map SymbolRow.id = List.range' nid l.length := by
  induction l with
  | nil => intro i m nid; rfl
  | cons s rest ih =>
    intro i m nid
    simp [mkSymbolRows, symRowOf, ih, List.range'];

theorem mkImportRows_ids (fs : FileSys) (pr ip : String) (l : List ImportInsert) :
    ∀ nid, (mkImportRows fs pr ip l nid).map ImportRow.id = List.range' nid l.length := by
  induction l with
  | nil => intro nid; rfl
  | cons imp rest ih =>
    intro nid
    simp [mkImportRows, impRowOf, ih, List.range']

theorem mkExportRows_ids (m : List (Nat × Nat)) (l : List ExportInsert) :
    ∀ nid, (mkExportRows m l nid).map ExportRow.id = List.range' nid l.length := by
  induction l with
  | nil => intro nid; rfl
  | cons e rest ih =>
    intro nid
    simp [mkExportRows, expRowOf, ih, List.range']

theorem mkSymbolRows_file_path {l : List SymbolInsert} {fp : String}
    (hall : ∀ s ∈ l, s.file_path = fp) :
    ∀ i m nid, ∀ r ∈ mkSymbolRows l i m nid, r.file_path = fp := by
  induction l with
  | nil => intro i m nid r h; simp [mkSymbolRows] at h
  | cons s rest ih =>
    intro i m nid r h
    rw [mkSymbolRows] at h
    rcases List.mem_cons.mp h with hr | hr
    · subst hr
      exact hall s (List.mem_cons_self _ _)
    · exact ih (fun x hx => hall x (List.mem_cons_of_mem s hx)) _ _ _ r hr

theorem mkImportRows_importer {fs : FileSys} {pr ip : String} {l : List ImportInsert} {fp : String}
    (hall : ∀ x ∈ l, x.importer_path = fp) :
    ∀ nid, ∀ r ∈ mkImportRows fs pr ip l nid, r.importer_path = fp := by
  induction l with
  | nil => intro nid r h; simp [mkImportRows] at h
  | cons x rest ih =>
    intro nid r h
    rw [mkImportRows] at h
    rcases List.mem_cons.mp h with hr | hr
    · subst hr
      exact hall x (List.mem_cons_self _ _)
    · exact ih (fun y hy => hall y (List.mem_cons_of_mem x hy)) _ r hr

theorem mkExportRows_file_path {m : List (Nat × Nat)} {l : List ExportInsert} {fp : String}
    (hall : ∀ x ∈ l, x.file_path = fp) :
    ∀ nid, ∀ r ∈ mkExportRows m l nid, r.file_path = fp := by
  induction l with
  | nil => intro nid r h; simp [mkExportRows] at h
  | cons x rest ih =>
    intro nid r h
    rw [mkExportRows] at h
    rcases List.mem_cons.mp h with hr | hr
    · subst hr
      exact hall x (List.mem_cons_self _ _)
    · exact ih (fun y hy => hall y (List.mem_cons_of_mem x hy)) _ r hr

/-! ## Rows of one file inside the store -/

/-- The `files` rows stored under a path. -/
def filesFor (db : Db) (p : String) : List FileRow :=
  db.files.filter fun f => f.path = p

/-- The `symbols` rows stored under a path. -/
def symbolsFor (db : Db) (p : String) : List SymbolRow :=
  db.symbols.filter fun s => s.file_path = p

/-- The `imports` rows stored under a path. -/
def importsFor (db : Db) (p : String) : List ImportRow :=
  db.imports.filter fun i => i.importer_path = p

/-- The `exports` rows stored under a path. -/
def exportsFor (db : Db) (p : String) : List ExportRow :=
  db.exports.filter fun e => e.file_path = p

theorem symbolsFor_applyFile (fs : FileSys) (pr : String) (file : ScannedFile) (db : Db) :
    symbolsFor (applyFile fs pr file db) file.path =
      mkSymbolRows (extractFromFile file.tree file.path).symbols 0 []
        (deleteFileData db file.path).nextSymbolId := by
  rw [symbolsFor, applyFile]
  simp only [List.filter_append]
  rw [show (deleteFileData db file.path).symbols
      = db.symbols.filter (fun s => s.file_path ≠ file.path) from rfl]
  rw [List.filter_filter]
  rw [List.filter_eq_nil_iff.mpr (by intro a ha; simp)]
  rw [List.filter_eq_self.mpr (by
    intro r hr
    have := mkSymbolRows_file_path
      (fun s hs => mem_extractSymbols_file_path hs) 0 [] (deleteFileData db file.path).nextSymbolId r hr
    simp [this])]
  simp

theorem importsFor_applyFile (fs : FileSys) (pr : String) (file : ScannedFile) (db : Db) :
    importsFor (applyFile fs pr file db) file.path =
      mkImportRows fs pr file.path (extractFromFile file.tree file.path).imports
        (deleteFileData db file.path).nextImportId := by
  rw [importsFor, applyFile]
  simp only [List.filter_append]
  rw [show (deleteFileData db file.path).imports
      = db.imports.filter (fun i => i.importer_path ≠ file.path) from rfl]
  rw [List.filter_filter]
  rw [List.filter_eq_nil_iff.mpr (by intro a ha; simp)]
  rw [List.filter_eq_self.mpr (by
    intro r hr
    have := mkImportRows_importer
      (fun x hx => mem_extractImports_importer hx) (deleteFileData db file.path).nextImportId r hr
    simp [this])]
  simp

theorem deleteFileData_exports_path (db : Db) (p : String) :
    (deleteFileData db p).exports.filter (fun e => e.file_path = p) = [] := by
  rw [List.filter_eq_nil_iff]
  intro a ha
  rw [show (deleteFileData db p).exports
      = (db.exports.filter fun e => e.file_path ≠ p).map (fun e =>
          match e.symbol_id with
          | some sid =>
            if (((db.symbols.filter fun s => s.file_path = p).map SymbolRow.id).contains sid)
            then { e with symbol_id := none } else e
          | none => e) from rfl] at ha
  rw [List.mem_map] at ha
  obtain ⟨b, hb, heq⟩ := ha
  rw [List.mem_filter] at hb
  have hbp : (b.file_path = p) = False := by
    simpa using hb.2
  have hfp : a.file_path = b.file_path := by
    cases hsym : b.symbol_id with
    | none => rw [← heq, hsym]
    | some sid =>
      rw [← heq]
      simp only [hsym]
      by_cases hc : (((db.symbols.filter fun s => s.file_path = p).map SymbolRow.id).contains sid) = true
      · rw [if_pos hc]
      · rw [if_neg hc]
  simp [hfp, hbp]

theorem exportsFor_applyFile (fs : FileSys) (pr : String) (file : ScannedFile) (db : Db) :
    exportsFor (applyFile fs pr file db) file.path =
      mkExportRows
        (mkSymbolAssoc 0 (deleteFileData db file.path).nextSymbolId
          (extractFromFile file.tree file.path).symbols.length)
        (extractFromFile file.tree file.path).exports
        (deleteFileData db file.path).nextExportId := by
  rw [exportsFor, applyFile]
  simp only [List.filter_append]
  rw [deleteFileData_exports_path]
  rw [List.filter_eq_self.mpr (by
    intro r hr
    have := mkExportRows_file_path
      (fun x hx => mem_extractExports_file_path hx) (deleteFileData db file.path).nextExportId r hr
    simp [this])]
  simp

theorem filesFor_applyFile (fs : FileSys) (pr : String) (file : ScannedFile) (db : Db) :
    filesFor (applyFile fs pr file db) file.path =
      [fileRowOf file (extractFromFile file.tree file.path).hasDefaultExport] := by
  rw [filesFor, applyFile]
  simp only [List.filter_append]
  rw [show (deleteFileData db file.path).files
      = db.files.filter (fun f => f.path ≠ file.path) from rfl]
  rw [List.filter_filter]
  rw [List.filter_eq_nil_iff.mpr (by intro a ha; simp)]
  simp [fileRowOf]

/-! ## Re-running the delete-then-reinsert pass shifts the surrogate ids
uniformly and changes nothing else -/

/-- Shift of a symbol row's surrogate id and of the surrogate id its
parent reference points at. -/
def shiftSymRow (k : Nat) (r : SymbolRow) : SymbolRow :=
  { r with id := r.id + k, parent_symbol_id := r.parent_symbol_id.map (· + k) }

/-- Shift of an import row's surrogate id. -/
def shiftImpRow (k : Nat) (r : ImportRow) : ImportRow :=
  { r with id := r.id + k }

/-- Shift of an export row's surrogate id and of the symbol id it
references. -/
def shiftExpRow (ks ke : Nat) (r : ExportRow) : ExportRow :=
  { r with id := r.id + ke, symbol_id := r.symbol_id.map (· + ks) }

/-- Shift of the ordinal-to-id association's id side. -/
def shiftAssoc (k : Nat) (m : List (Nat × Nat)) : List (Nat × Nat) :=
  m.map fun ab => (ab.1, ab.2 + k)

theorem lookup_shiftAssoc (k : Nat) (m : List (Nat × Nat)) (p : Nat) :
    (shiftAssoc k m).lookup p = (m.lookup p).map (· + k) := by
  induction m with
  | nil => rfl
  | cons ab rest ih =>
    obtain ⟨a, b⟩ := ab
    rw [shiftAssoc, List.map_cons, List.lookup, List.lookup]
    cases hpa : p == a
    · simpa [shiftAssoc] using ih
    · rfl

theorem shiftAssoc_append (k : Nat) (m₁ m₂ : List (Nat × Nat)) :
    shiftAssoc k (m₁ ++ m₂) = shiftAssoc k m₁ ++ shiftAssoc k m₂ := by
  simp [shiftAssoc]

theorem mkSymbolAssoc_shift (k : Nat) :
    ∀ (n i nid : Nat), mkSymbolAssoc i (nid + k) n = shiftAssoc k (mkSymbolAssoc i nid n) := by
  intro n
  induction n with
  | zero => intro i nid; rfl
  | succ n' ih =>
    intro i nid
    rw [mkSymbolAssoc, mkSymbolAssoc]
    rw [show nid + k + 1 = nid + 1 + k by omega]
    rw [ih (i + 1) (nid + 1)]
    rfl

theorem mkSymbolRows_shift (k : Nat) (l : List SymbolInsert) :
    ∀ (i nid : Nat) (m : List (Nat × Nat)),
      mkSymbolRows l i (shiftAssoc k m) (nid + k) = (mkSymbolRows l i m nid).map (shiftSymRow k) := by
  induction l with
  | nil => intro i nid m; rfl
  | cons s rest ih =>
    intro i nid m
    rw [mkSymbolRows, mkSymbolRows, List.map_cons]
    rw [show (nid + k) + 1 = (nid + 1) + k by omega]
    rw [show shiftAssoc k m ++ [(i, nid + k)] = shiftAssoc k (m ++ [(i, nid)]) by
      rw [shiftAssoc_append]; rfl]
    rw [ih (i + 1) (nid + 1) (m ++ [(i, nid)])]
    refine congrArg (· :: _) ?_
    have hparent : s.parent_symbol_id.bind (shiftAssoc k m).lookup
        = (s.parent_symbol_id.bind m.lookup).map (· + k) := by
      cases s.parent_symbol_id with
      | none => rfl
      | some p => simpa using lookup_shiftAssoc k m p
    simp [symRowOf, shiftSymRow, hparent]

theorem mkImportRows_shift (k : Nat) (fs : FileSys) (pr ip : String) (l : List ImportInsert) :
    ∀ nid, mkImportRows fs pr ip l (nid + k) = (mkImportRows fs pr ip l nid).map (shiftImpRow k) := by
  induction l with
  | nil => intro nid; rfl
  | cons x rest ih =>
    intro nid
    rw [mkImportRows, mkImportRows, List.map_cons]
    rw [show (nid + k) + 1 = (nid + 1) + k by omega]
    rw [ih (nid + 1)]
    rfl

theorem mkExportRows_shift (ks ke : Nat) (m : List (Nat × Nat)) (l : List ExportInsert) :
    ∀ nid, mkExportRows (shiftAssoc ks m) l (nid + ke)
      = (mkExportRows m l nid).map (shiftExpRow ks ke) := by
  induction l with
  | nil => intro nid; rfl
  | cons e rest ih =>
    intro nid
    rw [mkExportRows, mkExportRows, List.map_cons]
    rw [show (nid + ke) + 1 = (nid + 1) + ke by omega]
    rw [ih (nid + 1)]
    refine congrArg (· :: _) ?_
    have hsym : e.symbol_id.bind (shiftAssoc ks m).lookup
        = (e.symbol_id.bind m.lookup).map (· + ks) := by
      cases e.symbol_id with
      | none => rfl
      | some p => simpa using lookup_shiftAssoc ks m p
    simp [expRowOf, shiftExpRow, hsym]

/-! ## Absence of a file's rows, and what preserves it -/

/-- No row of any of the four tables names the path `p`. -/
def noRowsFor (db : Db) (p : String) : Prop :=
  filesFor db p = [] ∧ symbolsFor db p = [] ∧ importsFor db p = [] ∧ exportsFor db p = []

theorem deleteFileData_exports_mem {db : Db} {q : String} {a : ExportRow}
    (ha : a ∈ (deleteFileData db q).exports) :
    ∃ b, b ∈ db.exports ∧ a.file_path = b.file_path ∧ ¬(b.file_path = q) := by
  rw [show (deleteFileData db q).exports
      = (db.exports.filter fun e => e.file_path ≠ q).map (fun e =>
          match e.symbol_id with
          | some sid =>
            if (((db.symbols.filter fun s => s.file_path = q).map SymbolRow.id).contains sid)
            then { e with symbol_id := none } else e
          | none => e) from rfl] at ha
  rw [List.mem_map] at ha
  obtain ⟨b, hb, heq⟩ := ha
  rw [List.mem_filter] at hb
  refine ⟨b, hb.1, ?_, by simpa using hb.2⟩
  cases hsym : b.symbol_id with
  | none => rw [← heq, hsym]
  | some sid =>
    rw [← heq]
    simp only [hsym]
    by_cases hc : (((db.symbols.filter fun s => s.file_path = q).map SymbolRow.id).contains sid) = true
    · rw [if_pos hc]
    · rw [if_neg hc]

theorem deleteFileData_noRows_self (db : Db) (p : String) :
    noRowsFor (deleteFileData db p) p := by
  refine ⟨?_, ?_, ?_, deleteFileData_exports_path db p⟩
  · rw [filesFor, show (deleteFileData db p).files
        = db.files.filter (fun f => f.path ≠ p) from rfl, List.filter_filter]
    rw [List.filter_eq_nil_iff]
    intro a ha
    simp
  · rw [symbolsFor, show (deleteFileData db p).symbols
        = db.symbols.filter (fun s => s.file_path ≠ p) from rfl, List.filter_filter]
    rw [List.filter_eq_nil_iff]
    intro a ha
    simp
  · rw [importsFor, show (deleteFileData db p).imports
        = db.imports.filter (fun i => i.importer_path ≠ p) from rfl, List.filter_filter]
    rw [List.filter_eq_nil_iff]
    intro a ha
    simp

theorem deleteFileData_preserves_noRows {db : Db} {p : String} (q : String)
    (h : noRowsFor db p) : noRowsFor (deleteFileData db q) p := by
  obtain ⟨h1, h2, h3, h4⟩ := h
  refine ⟨?_, ?_, ?_, ?_⟩
  · rw [filesFor, List.filter_eq_nil_iff]
    intro a ha
    rw [show (deleteFileData db q).files
        = db.files.filter (fun f => f.path ≠ q) from rfl, List.mem_filter] at ha
    rw [filesFor, List.filter_eq_nil_iff] at h1
    exact h1 a ha.1
  · rw [symbolsFor, List.filter_eq_nil_iff]
    intro a ha
    rw [show (deleteFileData db q).symbols
        = db.symbols.filter (fun s => s.file_path ≠ q) from rfl, List.mem_filter] at ha
    rw [symbolsFor, List.filter_eq_nil_iff] at h2
    exact h2 a ha.1
  · rw [importsFor, List.filter_eq_nil_iff]
    intro a ha
    rw [show (deleteFileData db q).imports
        = db.imports.filter (fun i => i.importer_path ≠ q) from rfl, List.mem_filter] at ha
    rw [importsFor, List.filter_eq_nil_iff] at h3
    exact h3 a ha.1
  · rw [exportsFor, List.filter_eq_nil_iff]
    intro a ha
    obtain ⟨b, hbmem, hab, _⟩ := deleteFileData_exports_mem ha
    rw [exportsFor, List.filter_eq_nil_iff] at h4
    have := h4 b hbmem
    simpa [hab] using this

theorem applyFile_preserves_noRows {fs : FileSys} {pr : String} {file : ScannedFile} {db : Db}
    {p : String} (hne : file.path ≠ p) (h : noRowsFor db p) :
    noRowsFor (applyFile fs pr file db) p := by
  obtain ⟨h1, h2, h3, h4⟩ := deleteFileData_preserves_noRows file.path h
  refine ⟨?_, ?_, ?_, ?_⟩
  · rw [filesFor, List.filter_eq_nil_iff]
    intro a ha
    have ha' : a ∈ (deleteFileData db file.path).files
        ++ [fileRowOf file (extractFromFile file.tree file.path).hasDefaultExport] := ha
    rcases List.mem_append.mp ha' with hm | hm
    · rw [filesFor, List.filter_eq_nil_iff] at h1
      exact h1 a hm
    · rw [List.mem_singleton] at hm
      subst hm
      simpa [fileRowOf] using hne
  · rw [symbolsFor, List.filter_eq_nil_iff]
    intro a ha
    have ha' : a ∈ (deleteFileData db file.path).symbols
        ++ mkSymbolRows (extractFromFile file.tree file.path).symbols 0 []
            (deleteFileData db file.path).nextSymbolId := ha
    rcases List.mem_append.mp ha' with hm | hm
    · rw [symbolsFor, List.filter_eq_nil_iff] at h2
      exact h2 a hm
    · have := mkSymbolRows_file_path (fun x hx => mem_extractSymbols_file_path hx) _ _ _ a hm
      simp [this, hne]
  · rw [importsFor, List.filter_eq_nil_iff]
    intro a ha
    have ha' : a ∈ (deleteFileData db file.path).imports
        ++ mkImportRows fs pr file.path (extractFromFile file.tree file.path).imports
            (deleteFileData db file.path).nextImportId := ha
    rcases List.mem_append.mp ha' with hm | hm
    · rw [importsFor, List.filter_eq_nil_iff] at h3
      exact h3 a hm
    · have := mkImportRows_importer (fun x hx => mem_extractImports_importer hx) _ a hm
      simp [this, hne]
  · rw [exportsFor, List.filter_eq_nil_iff]
    intro a ha
    have ha' : a ∈ (deleteFileData db file.path).exports
        ++ mkExportRows
            (mkSymbolAssoc 0 (deleteFileData db file.path).nextSymbolId
              (extractFromFile file.tree file.path).symbols.length)
            (extractFromFile file.tree file.path).exports
            (deleteFileData db file.path).nextExportId := ha
    rcases List.mem_append.mp ha' with hm | hm
    · rw [exportsFor, List.filter_eq_nil_iff] at h4
      exact h4 a hm
    · have := mkExportRows_file_path (fun x hx => mem_extractExports_file_path hx) _ a hm
      simp [this, hne]

theorem processFile_noFault_preserves_noRows {fs : FileSys} {pr : String} {st : IndexSt}
    {file : ScannedFile} {p : String} (hne : file.path ≠ p) (h : noRowsFor st.db p) :
    noRowsFor (processFile .noFault fs pr st file).db p := by
  by_cases hc : file.content = ""
  · rw [processFile, if_pos hc]
    exact h
  · rw [processFile_noFault fs pr st file hc]
    exact applyFile_preserves_noRows hne h

theorem runFiles_noFault_preserves_noRows {fs : FileSys} {pr : String} {p : String} :
    ∀ {l : List (ScannedFile × FaultSpec)} {st : IndexSt},
    (∀ fc ∈ l, fc.1.path ≠ p ∧ fc.2 = FaultSpec.noFault) → noRowsFor st.db p →
    noRowsFor (runFiles fs pr st l).db p := by
  intro l
  induction l with
  | nil => intro st _ h; exact h
  | cons fc rest ih =>
    intro st hall h
    rw [runFiles]
    obtain ⟨hne, hfault⟩ := hall fc (List.mem_cons_self _ _)
    obtain ⟨f, fault⟩ := fc
    dsimp at hne hfault
    subst hfault
    exact ih (fun x hx => hall x (List.mem_cons_of_mem _ hx))
      (processFile_noFault_preserves_noRows hne h)

theorem foldl_deleteFileData_preserves_noRows {p : String} :
    ∀ (dl : List String) (db : Db), noRowsFor db p →
    noRowsFor (dl.foldl deleteFileData db) p := by
  intro dl
  induction dl with
  | nil => intro db h; exact h
  | cons q rest ih =>
    intro db h
    rw [List.foldl_cons]
    exact ih _ (deleteFileData_preserves_noRows q h)

theorem foldl_deleteFileData_noRows {p : String} :
    ∀ (dl : List String) (db : Db), p ∈ dl →
    noRowsFor (dl.foldl deleteFileData db) p := by
  intro dl
  induction dl with
  | nil => intro db h; cases h
  | cons q rest ih =>
    intro db h
    rw [List.foldl_cons]
    rcases List.mem_cons.mp h with heq | hmem
    · subst heq
      exact foldl_deleteFileData_preserves_noRows rest _ (deleteFileData_noRows_self db p)
    · exact ih _ hmem

/-! ## The extraction-call log -/

theorem processFile_extracted (fault : FaultSpec) (fs : FileSys) (pr : String)
    (st : IndexSt) (file : ScannedFile) :
    (processFile fault fs pr st file).extracted
      = st.extracted ++ (if file.content = "" then [] else [file.path]) := by
  rw [processFile]
  by_cases hc : file.content = ""
  · rw [if_pos hc, if_pos hc]
    simp
  · rw [if_neg hc, if_neg hc]
    cases perFileTx fault fs pr file st.db with
    | ok v => obtain ⟨db', ns, ni, ne⟩ := v; rfl
    | error d => rfl

theorem runFiles_extracted (fs : FileSys) (pr : String) :
    ∀ (l : List (ScannedFile × FaultSpec)) (st : IndexSt),
    (runFiles fs pr st l).extracted
      = st.extracted ++ (l.filter fun fc => !(fc.1.content = "")).map (fun fc => fc.1.path) := by
  intro l
  induction l with
  | nil => intro st; simp [runFiles]
  | cons fc rest ih =>
    intro st
    rw [runFiles, ih, processFile_extracted]
    by_cases hc : fc.1.content = ""
    · rw [if_pos hc]
      rw [List.filter_cons_of_neg (by simp [hc])]
      simp
    · rw [if_neg hc]
      rw [List.filter_cons_of_pos (by simp [hc])]
      simp

theorem scanAndLoadFiles_path_mem {d : Disk} {paths : List String} {f : ScannedFile}
    (h : f ∈ scanAndLoadFiles d paths) : f.path ∈ paths := by
  rw [scanAndLoadFiles, List.mem_filterMap] at h
  obtain ⟨p, hp, heq⟩ := h
  cases hstat : d.statFile p with
  | none => rw [hstat] at heq; cases heq
  | some df =>
    rw [hstat] at heq
    cases hlang : getLanguageFromExtension p with
    | none => rw [hlang] at heq; cases heq
    | some lang =>
      rw [hlang] at heq
      cases heq
      exact hp

/-! ## Concrete parse trees and stores used as witnesses -/

/-- Tree of `function f() {}` (one named function declaration). -/
def fxFnTree : TSNode :=
  .mk "program" none "function f() {}" 0 0
    [.mk "function_declaration" none "function f() {}" 0 0
      [.mk "identifier" (some "name") "f" 0 0 [],
       .mk "formal_parameters" (some "parameters") "()" 0 0 []]]

/-- Tree of `import './missing'` (side-effect import of an unresolvable
relative specifier). -/
def fxImpTree : TSNode :=
  .mk "program" none "import './missing'" 0 0
    [.mk "import_statement" none "import './missing'" 0 0
      [.mk "string" (some "source") "'./missing'" 0 0 []]]

/-- Tree of `import express from 'express'` (external default import). -/
def fxExtTree : TSNode :=
  .mk "program" none "import express from 'express'" 0 0
    [.mk "import_statement" none "import express from 'express'" 0 0
      [.mk "import_clause" none "express" 0 0
        [.mk "identifier" none "express" 0 0 []],
       .mk "string" (some "source") "'express'" 0 0 []]]

/-- Tree of `export default function () { return 1 }` (default export
wrapping an anonymous function declaration: the declaration has no `name`
field). -/
def fxDefaultTree : TSNode :=
  .mk "program" none "export default function () { return 1 }" 0 0
    [.mk "export_statement" none "export default function () { return 1 }" 0 0
      [.mk "export" none "export" 0 0 [],
       .mk "default" none "default" 0 0 [],
       .mk "function_declaration" (some "declaration") "function () { return 1 }" 0 0
         [.mk "formal_parameters" (some "parameters") "()" 0 0 [],
          .mk "statement_block" (some "body") "{ return 1 }" 0 0 []]]]

/-- Tree of `export class C { m() {} }`. -/
def fxClassTree : TSNode :=
  .mk "program" none "export class C { m() {} }" 0 0
    [.mk "export_statement" none "export class C { m() {} }" 0 0
      [.mk "export" none "export" 0 0 [],
       .mk "class_declaration" (some "declaration") "class C { m() {} }" 0 0
         [.mk "type_identifier" (some "name") "C" 0 0 [],
          .mk "class_body" (some "body") "{ m() {} }" 0 0
            [.mk "method_definition" none "m() {}" 0 0
              [.mk "property_identifier" (some "name") "m" 0 0 [],
               .mk "formal_parameters" (some "parameters") "()" 0 0 []]]]]]

/-- An empty filesystem: every resolution attempt fails. -/
def fxEmptyFs : FileSys := { isFile := [], isDir := [] }

/-- A scanned file whose content parses to `fxFnTree`. -/
def fxFnFile : ScannedFile :=
  { path := "a.ts", language := "typescript", mtime := 5
    content := "function f() {}", tree := fxFnTree }

/-- A scanned file whose content parses to `fxImpTree`. -/
def fxImpFile : ScannedFile :=
  { path := "a.ts", language := "typescript", mtime := 5
    content := "import './missing'", tree := fxImpTree }

/-- A store that already holds rows for `a.ts` (one file row and one
symbol row with id 1). -/
def fxOldDb : Db :=
  { files := [{ path := "a.ts", language := "typescript", modified_at := 1, loc := 3
                has_default_export := false }]
    symbols := [{ id := 1, name := "old", file_path := "a.ts", line_start := 1, line_end := 2
                  kind := "function", signature := "function old ()", exported := false
                  is_default := false, parent_symbol_id := none }]
    imports := []
    exports := []
    nextSymbolId := 2, nextImportId := 1, nextExportId := 1 }

/-! ## The claims -/

/-- C5: for every symbol produced by `extractFromFile` (and hence every
persisted symbol row, which copies these fields), `is_default = true`
implies `exported = true`. -/
theorem claim5_is_default_imp_exported (root : TSNode) (fp : String) (s : SymbolInsert)
    (h : s ∈ (extractFromFile root fp).symbols) :
    s.is_default = true → s.exported = true :=
  mem_extractSymbols_default h

/-- Tree of `export default function f() {}` (a default-exported named
function). -/
def fxDefaultFnTree : TSNode :=
  .mk "program" none "export default function f() {}" 0 0
    [.mk "export_statement" none "export default function f() {}" 0 0
      [.mk "export" none "export" 0 0 [],
       .mk "default" none "default" 0 0 [],
       .mk "function_declaration" (some "declaration") "function f() {}" 0 0
         [.mk "identifier" (some "name") "f" 0 0 [],
          .mk "formal_parameters" (some "parameters") "()" 0 0 []]]]

/-- Witness for C5 at the concrete tree of
`export default function f() {}`: the extracted symbol is default, hence
exported. -/
theorem claim5_witness :
    ({ name := "f", file_path := "a.ts", line_start := 1, line_end := 1, kind := "function"
       signature := "function f ()", exported := true, is_default := true
       parent_symbol_id := none } : SymbolInsert).exported = true :=
  claim5_is_default_imp_exported fxDefaultFnTree "a.ts" _ (by decide) (by decide)

/-- C6: for every import row produced by `extractFromFile`,
`is_external = true` implies the row's `imported_path` is unset. -/
theorem claim6_external_imp_no_path (root : TSNode) (fp : String) (row : ImportInsert)
    (h : row ∈ (extractFromFile root fp).imports) :
    row.is_external = true → row.imported_path = none := by
  intro hext
  obtain ⟨stmt, src, hsrc, h1, h2, h3, h4⟩ := mem_extractImports h
  rw [h2, if_pos hext]

/-- Witness for C6 at the concrete tree of
`import express from 'express'`: the external row's path is unset. -/
theorem claim6_witness :
    ({ importer_path := "a.ts", imported_path := none, imported_name := "default"
       «alias» := some "express", is_external := true, package_name := some "express"
       line_number := 1 } : ImportInsert).imported_path = none :=
  claim6_external_imp_no_path fxExtTree "a.ts" _ (by decide) (by decide)

/-- C7: an import row's specifier (the quote-stripped text of its
statement's `source` field) is classified external iff it starts with
neither `.` nor `/`, and an external row's `package_name` is the join of
the first two slash-separated segments of the specifier when it starts
with `@`, else the first segment. -/
theorem claim7_external_classification (root : TSNode) (fp : String) (row : ImportInsert)
    (h : row ∈ (extractFromFile root fp).imports) :
    ∃ stmt src, childForFieldName stmt "source" = some src ∧
      (row.is_external =
        (!(jsStartsWith "." (stripQuotes src.text)) && !(jsStartsWith "/" (stripQuotes src.text)))
      ∧ (row.is_external = true →
          row.package_name = some (String.intercalate "/"
            ((jsSplit '/' (stripQuotes src.text)).take
              (if jsStartsWith "@" (stripQuotes src.text) then 2 else 1))))) := by
  obtain ⟨stmt, src, hsrc, h1, h2, h3, h4⟩ := mem_extractImports h
  refine ⟨stmt, src, hsrc, h1, ?_⟩
  intro hext
  rw [h3, if_pos hext, getPackageName_eq_spec]

/-- Witness for C7 at the concrete tree of
`import express from 'express'`. -/
theorem claim7_witness :
    ∃ stmt src, childForFieldName stmt "source" = some src ∧
      (({ importer_path := "a.ts", imported_path := none, imported_name := "default"
          «alias» := some "express", is_external := true, package_name := some "express"
          line_number := 1 } : ImportInsert).is_external =
        (!(jsStartsWith "." (stripQuotes src.text)) && !(jsStartsWith "/" (stripQuotes src.text)))
      ∧ (({ importer_path := "a.ts", imported_path := none, imported_name := "default"
            «alias» := some "express", is_external := true, package_name := some "express"
            line_number := 1 } : ImportInsert).is_external = true →
          ({ importer_path := "a.ts", imported_path := none, imported_name := "default"
             «alias» := some "express", is_external := true, package_name := some "express"
             line_number := 1 } : ImportInsert).package_name
            = some (String.intercalate "/"
              ((jsSplit '/' (stripQuotes src.text)).take
                (if jsStartsWith "@" (stripQuotes src.text) then 2 else 1))))) :=
  claim7_external_classification fxExtTree "a.ts" _ (by decide)

/-- C10: a default export wrapping an anonymous declaration
(`export default function () { return 1 }`) yields exactly one export
row named `default` with no symbol reference, sets `hasDefaultExport`,
and yields no symbol row, because the anonymous declaration has no name
node and is skipped by symbol extraction. -/
theorem claim10_anonymous_default_export :
    extractFromFile fxDefaultTree "a.ts" =
      { symbols := []
        imports := []
        exports := [{ file_path := "a.ts", exported_name := "default", local_name := none
                      symbol_id := none, is_reexport := false, source_path := none
                      line_number := 1 }]
        hasDefaultExport := true } := by
  decide

/-- C8: in every `ExtractionResult`, a set `parent_symbol_id` appears
only on `method`/`property` symbols, equals the emitted-sequence position
of a `class` symbol of the same file that occurs strictly earlier, and is
therefore always resolved by the indexer's single-pass ordinal-to-id map
(for any starting AUTOINCREMENT id `b`, the pass's map sends the ordinal
`p` to the persisted id `b + p`). -/
theorem claim8_parent_ordinal_invariant (root : TSNode) (fp : String) (i p b : Nat)
    (s : SymbolInsert) (h : (extractFromFile root fp).symbols[i]? = some s)
    (hp : s.parent_symbol_id = some p) :
    (s.kind = "method" ∨ s.kind = "property") ∧ p < i ∧ s.file_path = fp ∧
      (∃ c, (extractFromFile root fp).symbols[p]? = some c ∧ c.kind = "class"
        ∧ c.file_path = fp) ∧
      (mkSymbolAssoc 0 b (extractFromFile root fp).symbols.length).lookup p = some (b + p) := by
  have hsyms : (extractFromFile root fp).symbols = extractSymbols root fp := rfl
  rw [hsyms] at h ⊢
  obtain ⟨hk, hlt, c, hc, hck⟩ := extractSymbols_parent_invariant h hp
  have hi : i < (extractSymbols root fp).length := by
    by_contra hcon
    rw [List.getElem?_eq_none (Nat.le_of_not_lt hcon)] at h
    cases h
  have hres := mkSymbolAssoc_lookup (extractSymbols root fp).length 0 b p (Nat.zero_le p)
    (by omega)
  refine ⟨hk, hlt, mem_extractSymbols_file_path (List.getElem?_mem h), ⟨c, hc, hck,
    mem_extractSymbols_file_path (List.getElem?_mem hc)⟩, ?_⟩
  rw [hres]
  simp

/-- Witness for C8 at the concrete tree of `export class C { m() {} }`:
the method at position 1 references the class at position 0, and the
ordinal-to-id map starting at id 7 resolves ordinal 0 to id 7. -/
theorem claim8_witness :
    (({ name := "m", file_path := "a.ts", line_start := 1, line_end := 1, kind := "method"
        signature := "m ()", exported := false, is_default := false
        parent_symbol_id := some 0 } : SymbolInsert).kind = "method" ∨
      ({ name := "m", file_path := "a.ts", line_start := 1, line_end := 1, kind := "method"
         signature := "m ()", exported := false, is_default := false
         parent_symbol_id := some 0 } : SymbolInsert).kind = "property") ∧
    0 < 1 ∧
    ({ name := "m", file_path := "a.ts", line_start := 1, line_end := 1, kind := "method"
       signature := "m ()", exported := false, is_default := false
       parent_symbol_id := some 0 } : SymbolInsert).file_path = "a.ts" ∧
    (∃ c, (extractFromFile fxClassTree "a.ts").symbols[0]? = some c ∧ c.kind = "class"
      ∧ c.file_path = "a.ts") ∧
    (mkSymbolAssoc 0 7 (extractFromFile fxClassTree "a.ts").symbols.length).lookup 0
      = some (7 + 0) :=
  claim8_parent_ordinal_invariant fxClassTree "a.ts" 1 0 7 _ (by decide) (by decide)

/-- A scanned file whose loaded content is empty. -/
def fxEmptyFile : ScannedFile :=
  { path := "a.ts", language := "typescript", mtime := 5, content := "", tree := fxFnTree }

/-- A disk whose single file cannot be read (`content = none`). -/
def fxUnreadableDisk : Disk :=
  { files := [{ path := "a.ts", mtime := 5, content := none, tree := fxFnTree }] }

/-- C9: per-file processing returns immediately (store, counters and
error list unchanged) when the loaded content is empty, and
`scanAndLoadFiles` substitutes the empty string for a file it cannot
read; in particular a file that becomes empty on disk keeps its
previously indexed rows. -/
theorem claim9_empty_content_skipped (fault : FaultSpec) (fs : FileSys) (pr : String)
    (st : IndexSt) (file : ScannedFile) :
    (file.content = "" → processFile fault fs pr st file = st) ∧
    (∀ (d : Disk) (p : String) (df : DiskFile) (lang : String),
      d.statFile p = some df → getLanguageFromExtension p = some lang → df.content = none →
      scanAndLoadFiles d [p] =
        [{ path := p, language := lang, mtime := df.mtime, content := "", tree := df.tree }]) := by
  constructor
  · intro h
    rw [processFile, if_pos h]
  · intro d p df lang hstat hlang hcont
    rw [scanAndLoadFiles]
    simp only [List.filterMap_cons, List.filterMap_nil, hstat, hlang, hcont]
    rfl

/-- Witness for C9: an empty file leaves the prior store (`fxOldDb`)
untouched, and an unreadable disk file loads with empty content. -/
theorem claim9_witness :
    processFile .noFault fxEmptyFs "/p" (IndexSt.start fxOldDb) fxEmptyFile
      = IndexSt.start fxOldDb ∧
    scanAndLoadFiles fxUnreadableDisk ["a.ts"] =
      [{ path := "a.ts", language := "typescript", mtime := 5, content := ""
         tree := fxFnTree }] :=
  ⟨(claim9_empty_content_skipped .noFault fxEmptyFs "/p" (IndexSt.start fxOldDb) fxEmptyFile).1
      rfl,
    (claim9_empty_content_skipped .noFault fxEmptyFs "/p" (IndexSt.start fxOldDb) fxEmptyFile).2
      fxUnreadableDisk "a.ts" { path := "a.ts", mtime := 5, content := none, tree := fxFnTree }
      "typescript" rfl (by decide) rfl⟩

theorem perFileTx_atExtraction (fs : FileSys) (pr : String) (file : ScannedFile) (db : Db) :
    perFileTx .atExtraction fs pr file db = .error db := by
  rw [perFileTx]
  rw [if_pos rfl]

/-- C1 (amended): an extraction failure leaves the store exactly as it
was, records the error, and the batch continues with the remaining files;
a failure of any store step likewise records exactly one error and never
stops the batch — but the state the transaction commits is the
connection state at the throw site, not a rollback (the callback catches
the exception itself, so `db.transaction` never rolls back; see the
counterexample for a post-delete fault losing the previous rows). -/
theorem claim1_fault_isolation :
    (∀ (fs : FileSys) (pr : String) (st : IndexSt) (file : ScannedFile),
      file.content ≠ "" →
      processFile .atExtraction fs pr st file =
        { st with errors := st.errors ++ [(file.path, indexErrorMessage)]
                  extracted := st.extracted ++ [file.path] }) ∧
    (∀ (fault : FaultSpec) (fs : FileSys) (pr : String) (st : IndexSt) (file : ScannedFile),
      (processFile fault fs pr st file).errors = st.errors ∨
      (processFile fault fs pr st file).errors = st.errors ++ [(file.path, indexErrorMessage)]) ∧
    (∀ (fs : FileSys) (pr : String) (st : IndexSt) (file : ScannedFile) (fault : FaultSpec)
      (rest : List (ScannedFile × FaultSpec)),
      runFiles fs pr st ((file, fault) :: rest) = runFiles fs pr (processFile fault fs pr st file) rest) := by
  refine ⟨?_, ?_, ?_⟩
  · intro fs pr st file h
    rw [processFile, if_neg h, perFileTx_atExtraction]
  · intro fault fs pr st file
    rw [processFile]
    by_cases hc : file.content = ""
    · rw [if_pos hc]
      exact Or.inl rfl
    · rw [if_neg hc]
      cases perFileTx fault fs pr file st.db with
      | ok v =>
        obtain ⟨db', ns, ni, ne⟩ := v
        exact Or.inl rfl
      | error d => exact Or.inr rfl
  · intro fs pr st file fault rest
    rfl

/-- Witness for C1 (amended), at the concrete one-function file over the
store that already indexed it. -/
theorem claim1_witness :
    processFile .atExtraction fxEmptyFs "/p" (IndexSt.start fxOldDb) fxFnFile =
      { IndexSt.start fxOldDb with
        errors := (IndexSt.start fxOldDb).errors ++ [(fxFnFile.path, indexErrorMessage)]
        extracted := (IndexSt.start fxOldDb).extracted ++ [fxFnFile.path] } ∧
    ((processFile (.atOp 2) fxEmptyFs "/p" (IndexSt.start fxOldDb) fxFnFile).errors
        = (IndexSt.start fxOldDb).errors ∨
      (processFile (.atOp 2) fxEmptyFs "/p" (IndexSt.start fxOldDb) fxFnFile).errors
        = (IndexSt.start fxOldDb).errors ++ [(fxFnFile.path, indexErrorMessage)]) ∧
    runFiles fxEmptyFs "/p" (IndexSt.start fxOldDb) [(fxFnFile, .atOp 2)] =
      runFiles fxEmptyFs "/p"
        (processFile (.atOp 2) fxEmptyFs "/p" (IndexSt.start fxOldDb) fxFnFile) [] :=
  ⟨claim1_fault_isolation.1 fxEmptyFs "/p" (IndexSt.start fxOldDb) fxFnFile (by decide),
    claim1_fault_isolation.2.1 (.atOp 2) fxEmptyFs "/p" (IndexSt.start fxOldDb) fxFnFile,
    claim1_fault_isolation.2.2 fxEmptyFs "/p" (IndexSt.start fxOldDb) fxFnFile (.atOp 2) []⟩

/-- C1 counterexample: with the file already indexed (`fxOldDb` holds its
previous symbol row), a throw in the first symbol insert — i.e. after
the per-file delete — records the error, yet the file's previous symbol
rows are gone from the committed state instead of being restored: the
catch sits inside the transaction callback, so the transaction commits
the partial work of the delete and the file insert. -/
theorem claim1_counterexample :
    (processFile (.atOp 2) fxEmptyFs "/p" (IndexSt.start fxOldDb) fxFnFile).errors
      = [("a.ts", indexErrorMessage)] ∧
    symbolsFor fxOldDb "a.ts" ≠ [] ∧
    symbolsFor (processFile (.atOp 2) fxEmptyFs "/p" (IndexSt.start fxOldDb) fxFnFile).db "a.ts"
      = [] := by
  decide

/-- C2 (amended): the indexer resolves each truthy non-external specifier
with `resolveImportPath` (importer-relative, extensions first, then
index files in a directory), but when resolution fails the stored
`imported_path` is the original raw specifier — the
`resolveImportPath(...) ?? resolvedPath` fallback — not null; null is
stored only for external imports. -/
theorem claim2_unresolvable_keeps_raw_specifier (fs : FileSys) (pr : String) (st : IndexSt)
    (file : ScannedFile) (j : Nat) (imp : ImportInsert) (s : String)
    (hcontent : file.content ≠ "")
    (hj : (extractFromFile file.tree file.path).imports[j]? = some imp)
    (hpath : imp.imported_path = some s) (hs : s ≠ "")
    (hext : imp.is_external = false)
    (hres : resolveImportPath fs s file.path pr = none) :
    (importsFor (processFile .noFault fs pr st file).db file.path)[j]? =
      some (impRowOf { imp with imported_path := some s }
        ((deleteFileData st.db file.path).nextImportId + j)) := by
  rw [processFile_noFault fs pr st file hcontent]
  show (importsFor (applyFile fs pr file st.db) file.path)[j]? = _
  rw [importsFor_applyFile]
  rw [mkImportRows_getElem fs pr file.path _ _ j imp hj]
  have hstored : storedImportPath fs pr file.path imp = some s := by
    rw [storedImportPath]
    rw [if_pos (by simp [jsTruthy, hpath, hs, hext])]
    rw [hpath]
    simp only [hres]
  rw [hstored]

/-- Witness for C2 (amended) at `import './missing'` over an empty
filesystem: the stored path is the raw specifier. -/
theorem claim2_witness :
    (importsFor (processFile .noFault fxEmptyFs "/p" (IndexSt.start Db.empty) fxImpFile).db
        fxImpFile.path)[0]? =
      some (impRowOf
        { importer_path := "a.ts", imported_path := some "./missing", imported_name := "*"
          «alias» := none, is_external := false, package_name := none, line_number := 1 }
        ((deleteFileData (IndexSt.start Db.empty).db fxImpFile.path).nextImportId + 0)) :=
  claim2_unresolvable_keeps_raw_specifier fxEmptyFs "/p" (IndexSt.start Db.empty) fxImpFile 0
    { importer_path := "a.ts", imported_path := some "./missing", imported_name := "*"
      «alias» := none, is_external := false, package_name := none, line_number := 1 }
    "./missing" (by decide) (by decide) (by decide) (by decide) (by decide) (by decide)

/-- C2 counterexample: `./missing` is a relative specifier that resolves
to no on-disk file, yet the stored `imported_path` is `'./missing'`, not
null, refuting the claim's final clause. -/
theorem claim2_counterexample :
    jsStartsWith "." "./missing" = true ∧
    resolveImportPath fxEmptyFs "./missing" "a.ts" "/p" = none ∧
    (processFile .noFault fxEmptyFs "/p" (IndexSt.start Db.empty) fxImpFile).db.imports.map
      ImportRow.imported_path = [some "./missing"] := by
  decide

/-- The non-surrogate fields of a symbol row. -/
def symPayload (r : SymbolRow) : String × String × Nat × Nat × String × String × Bool × Bool :=
  (r.name, r.file_path, r.line_start, r.line_end, r.kind, r.signature, r.exported, r.is_default)

/-- The non-surrogate fields of an import row. -/
def impPayload (r : ImportRow) :
    String × Option String × String × Option String × Bool × Option String × Nat :=
  (r.importer_path, r.imported_path, r.imported_name, r.«alias», r.is_external,
    r.package_name, r.line_number)

/-- The non-surrogate fields of an export row. -/
def expPayload (r : ExportRow) : String × String × Option String × Bool × Option String × Nat :=
  (r.file_path, r.exported_name, r.local_name, r.is_reexport, r.source_path, r.line_number)

/-- C4 (amended): running the delete-then-reinsert pass a second time on
the same unchanged file yields the file's rows in symbols/imports/exports
identical up to a uniform shift of the fresh AUTOINCREMENT surrogate ids
(and of the references to them): same row counts, identical values in
every non-surrogate field, and no duplicate rows (the surrogate ids are
pairwise distinct). -/
theorem claim4_idempotent_up_to_ids (fs : FileSys) (pr : String) (st : IndexSt)
    (file : ScannedFile) (hcontent : file.content ≠ "") :
    (symbolsFor (processFile .noFault fs pr (processFile .noFault fs pr st file) file).db file.path
      = (symbolsFor (processFile .noFault fs pr st file).db file.path).map
          (shiftSymRow (extractFromFile file.tree file.path).symbols.length)) ∧
    (importsFor (processFile .noFault fs pr (processFile .noFault fs pr st file) file).db file.path
      = (importsFor (processFile .noFault fs pr st file).db file.path).map
          (shiftImpRow (extractFromFile file.tree file.path).imports.length)) ∧
    (exportsFor (processFile .noFault fs pr (processFile .noFault fs pr st file) file).db file.path
      = (exportsFor (processFile .noFault fs pr st file).db file.path).map
          (shiftExpRow (extractFromFile file.tree file.path).symbols.length
            (extractFromFile file.tree file.path).exports.length)) ∧
    ((symbolsFor (processFile .noFault fs pr (processFile .noFault fs pr st file) file).db file.path).length
      = (symbolsFor (processFile .noFault fs pr st file).db file.path).length) ∧
    ((importsFor (processFile .noFault fs pr (processFile .noFault fs pr st file) file).db file.path).length
      = (importsFor (processFile .noFault fs pr st file).db file.path).length) ∧
    ((exportsFor (processFile .noFault fs pr (processFile .noFault fs pr st file) file).db file.path).length
      = (exportsFor (processFile .noFault fs pr st file).db file.path).length) ∧
    ((symbolsFor (processFile .noFault fs pr (processFile .noFault fs pr st file) file).db file.path).map symPayload
      = (symbolsFor (processFile .noFault fs pr st file).db file.path).map symPayload) ∧
    ((importsFor (processFile .noFault fs pr (processFile .noFault fs pr st file) file).db file.path).map impPayload
      = (importsFor (processFile .noFault fs pr st file).db file.path).map impPayload) ∧
    ((exportsFor (processFile .noFault fs pr (processFile .noFault fs pr st file) file).db file.path).map expPayload
      = (exportsFor (processFile .noFault fs pr st file).db file.path).map expPayload) ∧
    ((symbolsFor (processFile .noFault fs pr (processFile .noFault fs pr st file) file).db file.path).map SymbolRow.id).Nodup ∧
    ((importsFor (processFile .noFault fs pr (processFile .noFault fs pr st file) file).db file.path).map ImportRow.id).Nodup ∧
    ((exportsFor (processFile .noFault fs pr (processFile .noFault fs pr st file) file).db file.path).map ExportRow.id).Nodup := by
  have hst1 := processFile_noFault fs pr st file hcontent
  have hst2 := processFile_noFault fs pr (processFile .noFault fs pr st file) file hcontent
  rw [hst1] at hst2
  rw [hst1, hst2]
  show (symbolsFor (applyFile fs pr file (applyFile fs pr file st.db)) file.path
      = (symbolsFor (applyFile fs pr file st.db) file.path).map _) ∧ _
  have hs1 := symbolsFor_applyFile fs pr file st.db
  have hs2 := symbolsFor_applyFile fs pr file (applyFile fs pr file st.db)
  have hi1 := importsFor_applyFile fs pr file st.db
  have hi2 := importsFor_applyFile fs pr file (applyFile fs pr file st.db)
  have he1 := exportsFor_applyFile fs pr file st.db
  have he2 := exportsFor_applyFile fs pr file (applyFile fs pr file st.db)
  have hbs : (deleteFileData (applyFile fs pr file st.db) file.path).nextSymbolId
      = (deleteFileData st.db file.path).nextSymbolId
        + (extractFromFile file.tree file.path).symbols.length := rfl
  have hbi : (deleteFileData (applyFile fs pr file st.db) file.path).nextImportId
      = (deleteFileData st.db file.path).nextImportId
        + (extractFromFile file.tree file.path).imports.length := rfl
  have hbe : (deleteFileData (applyFile fs pr file st.db) file.path).nextExportId
      = (deleteFileData st.db file.path).nextExportId
        + (extractFromFile file.tree file.path).exports.length := rfl
  have hsym : symbolsFor (applyFile fs pr file (applyFile fs pr file st.db)) file.path
      = (symbolsFor (applyFile fs pr file st.db) file.path).map
          (shiftSymRow (extractFromFile file.tree file.path).symbols.length) := by
    rw [hs1, hs2, hbs]
    rw [show (mkSymbolRows (extractFromFile file.tree file.path).symbols 0 []
        ((deleteFileData st.db file.path).nextSymbolId
          + (extractFromFile file.tree file.path).symbols.length))
      = mkSymbolRows (extractFromFile file.tree file.path).symbols 0
          (shiftAssoc (extractFromFile file.tree file.path).symbols.length [])
          ((deleteFileData st.db file.path).nextSymbolId
            + (extractFromFile file.tree file.path).symbols.length) from rfl]
    rw [mkSymbolRows_shift]
  have himp : importsFor (applyFile fs pr file (applyFile fs pr file st.db)) file.path
      = (importsFor (applyFile fs pr file st.db) file.path).map
          (shiftImpRow (extractFromFile file.tree file.path).imports.length) := by
    rw [hi1, hi2, hbi, mkImportRows_shift]
  have hexp : exportsFor (applyFile fs pr file (applyFile fs pr file st.db)) file.path
      = (exportsFor (applyFile fs pr file st.db) file.path).map
          (shiftExpRow (extractFromFile file.tree file.path).symbols.length
            (extractFromFile file.tree file.path).exports.length) := by
    rw [he1, he2, hbe, hbs, mkSymbolAssoc_shift, mkExportRows_shift]
  refine ⟨hsym, himp, hexp, ?_, ?_, ?_, ?_, ?_, ?_, ?_, ?_, ?_⟩
  · rw [hsym, List.length_map]
  · rw [himp, List.length_map]
  · rw [hexp, List.length_map]
  · rw [hsym, List.map_map]
    refine List.map_congr_left ?_
    intro r _
    rfl
  · rw [himp, List.map_map]
    refine List.map_congr_left ?_
    intro r _
    rfl
  · rw [hexp, List.map_map]
    refine List.map_congr_left ?_
    intro r _
    rfl
  · rw [hsym, hs1]
    rw [show ((mkSymbolRows (extractFromFile file.tree file.path).symbols 0 []
        (deleteFileData st.db file.path).nextSymbolId).map
          (shiftSymRow (extractFromFile file.tree file.path).symbols.length)).map SymbolRow.id
      = ((mkSymbolRows (extractFromFile file.tree file.path).symbols 0 []
          (deleteFileData st.db file.path).nextSymbolId).map SymbolRow.id).map
            (· + (extractFromFile file.tree file.path).symbols.length) by
      rw [List.map_map, List.map_map]
      refine List.map_congr_left ?_
      intro r _
      rfl]
    rw [mkSymbolRows_ids]
    exact (List.nodup_range' _ _).map (fun a b => by omega)
  · rw [himp, hi1]
    rw [show ((mkImportRows fs pr file.path (extractFromFile file.tree file.path).imports
        (deleteFileData st.db file.path).nextImportId).map
          (shiftImpRow (extractFromFile file.tree file.path).imports.length)).map ImportRow.id
      = ((mkImportRows fs pr file.path (extractFromFile file.tree file.path).imports
          (deleteFileData st.db file.path).nextImportId).map ImportRow.id).map
            (· + (extractFromFile file.tree file.path).imports.length) by
      rw [List.map_map, List.map_map]
      refine List.map_congr_left ?_
      intro r _
      rfl]
    rw [mkImportRows_ids]
    exact (List.nodup_range' _ _).map (fun a b => by omega)
  · rw [hexp, he1]
    rw [show ((mkExportRows
        (mkSymbolAssoc 0 (deleteFileData st.db file.path).nextSymbolId
          (extractFromFile file.tree file.path).symbols.length)
        (extractFromFile file.tree file.path).exports
        (deleteFileData st.db file.path).nextExportId).map
          (shiftExpRow (extractFromFile file.tree file.path).symbols.length
            (extractFromFile file.tree file.path).exports.length)).map ExportRow.id
      = ((mkExportRows
          (mkSymbolAssoc 0 (deleteFileData st.db file.path).nextSymbolId
            (extractFromFile file.tree file.path).symbols.length)
          (extractFromFile file.tree file.path).exports
          (deleteFileData st.db file.path).nextExportId).map ExportRow.id).map
            (· + (extractFromFile file.tree file.path).exports.length) by
      rw [List.map_map, List.map_map]
      refine List.map_congr_left ?_
      intro r _
      rfl]
    rw [mkExportRows_ids]
    exact (List.nodup_range' _ _).map (fun a b => by omega)

/-- Witness for C4 (amended): the one-function file re-indexed over the
empty store. -/
theorem claim4_witness :
    symbolsFor (processFile .noFault fxEmptyFs "/p"
        (processFile .noFault fxEmptyFs "/p" (IndexSt.start Db.empty) fxFnFile) fxFnFile).db
        fxFnFile.path
      = (symbolsFor (processFile .noFault fxEmptyFs "/p" (IndexSt.start Db.empty) fxFnFile).db
          fxFnFile.path).map
          (shiftSymRow (extractFromFile fxFnFile.tree fxFnFile.path).symbols.length) ∧
    ((symbolsFor (processFile .noFault fxEmptyFs "/p"
        (processFile .noFault fxEmptyFs "/p" (IndexSt.start Db.empty) fxFnFile) fxFnFile).db
        fxFnFile.path).map symPayload
      = (symbolsFor (processFile .noFault fxEmptyFs "/p" (IndexSt.start Db.empty) fxFnFile).db
          fxFnFile.path).map symPayload) :=
  ⟨(claim4_idempotent_up_to_ids fxEmptyFs "/p" (IndexSt.start Db.empty) fxFnFile (by decide)).1,
    (claim4_idempotent_up_to_ids fxEmptyFs "/p" (IndexSt.start Db.empty) fxFnFile
      (by decide)).2.2.2.2.2.2.1⟩

/-- C4 counterexample: re-indexing the unchanged one-function file does
not reproduce identical rows — AUTOINCREMENT assigns a fresh surrogate
id (1 on the first pass, 2 on the second), so the rows differ in their
id field. -/
theorem claim4_counterexample :
    symbolsFor (processFile .noFault fxEmptyFs "/p" (IndexSt.start Db.empty) fxFnFile).db "a.ts"
      ≠ symbolsFor (processFile .noFault fxEmptyFs "/p"
          (processFile .noFault fxEmptyFs "/p" (IndexSt.start Db.empty) fxFnFile) fxFnFile).db
          "a.ts" ∧
    (symbolsFor (processFile .noFault fxEmptyFs "/p" (IndexSt.start Db.empty) fxFnFile).db
        "a.ts").map SymbolRow.id = [1] ∧
    (symbolsFor (processFile .noFault fxEmptyFs "/p"
        (processFile .noFault fxEmptyFs "/p" (IndexSt.start Db.empty) fxFnFile) fxFnFile).db
        "a.ts").map SymbolRow.id = [2] := by
  decide

/-! ## Support for the incremental-update claim -/

theorem lookup_any {β : Type} (l : List (String × β)) (p : String) (m : β)
    (h : l.lookup p = some m) : l.any (fun c => c.1 = p) = true := by
  induction l with
  | nil => cases h
  | cons c rest ih =>
    obtain ⟨a, b⟩ := c
    rw [List.lookup] at h
    rw [List.any_cons]
    cases hpa : p == a with
    | true =>
      have : a = p := by
        have := of_decide_eq_true hpa
        exact this.symm
      simp [this]
    | false =>
      rw [hpa] at h
      rw [ih h]
      simp

theorem mem_getStaleFiles_path {db : Db} {current : List (String × Nat)} {p : String}
    (h : p ∈ (getStaleFiles db current).map FileRow.path) :
    ∃ f ∈ db.files, f.path = p ∧ ∃ m, current.lookup p = some m ∧ f.modified_at < m := by
  rw [List.mem_map] at h
  obtain ⟨f, hf, hfp⟩ := h
  rw [getStaleFiles, List.mem_filter] at hf
  obtain ⟨hmem, hpred⟩ := hf
  cases hl : current.lookup f.path with
  | none => rw [hl] at hpred; cases hpred
  | some m =>
    rw [hl] at hpred
    refine ⟨f, hmem, hfp, m, ?_, of_decide_eq_true hpred⟩
    rw [← hfp]
    exact hl

theorem mem_getNewFiles {db : Db} {current : List (String × Nat)} {p : String}
    (h : p ∈ getNewFiles db current) :
    p ∈ current.map Prod.fst ∧ (db.files.any fun f => f.path = p) = false := by
  rw [getNewFiles, List.mem_filter] at h
  exact ⟨h.1, by simpa using h.2⟩

theorem mem_getDeletedFiles {db : Db} {current : List (String × Nat)} {p : String}
    (h : p ∈ getDeletedFiles db current) :
    p ∈ db.files.map FileRow.path ∧ (current.any fun c => c.1 = p) = false := by
  rw [getDeletedFiles, List.mem_filter] at h
  exact ⟨h.1, by simpa using h.2⟩

/-- The work list of the incremental update: stale paths then new paths. -/
def updateWorkList (d : Disk) (db : Db) : List String :=
  (getStaleFiles db (getFileModTimes d)).map FileRow.path
    ++ getNewFiles db (getFileModTimes d)

theorem updateIndex_def (d : Disk) (fs : FileSys) (pr : String) (db : Db) :
    updateIndex d fs pr db =
      (if (updateWorkList d db).isEmpty
       then IndexSt.start ((getDeletedFiles db (getFileModTimes d)).foldl deleteFileData db)
       else runFiles fs pr
         (IndexSt.start ((getDeletedFiles db (getFileModTimes d)).foldl deleteFileData db))
         ((scanAndLoadFiles d (updateWorkList d db)).map fun f => (f, FaultSpec.noFault))) := rfl

/-- A deleted path is on no element of the work list. -/
theorem deleted_not_in_workList {d : Disk} {db : Db} {p : String}
    (hdel : p ∈ getDeletedFiles db (getFileModTimes d)) :
    p ∉ updateWorkList d db := by
  obtain ⟨_, hnone⟩ := mem_getDeletedFiles hdel
  intro hmem
  rw [updateWorkList] at hmem
  rcases List.mem_append.mp hmem with hstale | hnew
  · obtain ⟨f, _, hfp, m, hl, _⟩ := mem_getStaleFiles_path hstale
    rw [lookup_any _ p m hl] at hnone
    cases hnone
  · obtain ⟨hcur, _⟩ := mem_getNewFiles hnew
    rw [List.mem_map] at hcur
    obtain ⟨c, hc, hcp⟩ := hcur
    rw [List.any_eq_false] at hnone
    exact absurd (by simpa using hcp) (by simpa using hnone c hc)

theorem filter_map_pair (files : List ScannedFile) :
    (((files.map fun f => (f, FaultSpec.noFault)).filter fun fc => !(fc.1.content = "")).map
      fun fc => fc.1.path)
      = (files.filter fun f => !(f.content = "")).map ScannedFile.path := by
  induction files with
  | nil => rfl
  | cons f rest ih =>
    rw [List.map_cons]
    by_cases hc : f.content = ""
    · rw [List.filter_cons_of_neg (by simp [hc]), List.filter_cons_of_neg (by simp [hc])]
      exact ih
    · rw [List.filter_cons_of_pos (by simp [hc]), List.filter_cons_of_pos (by simp [hc])]
      rw [List.map_cons, List.map_cons, ih]

/-- C3 (amended): an incremental update extracts exactly those stale or
new files whose loaded content is non-empty (empty or unreadable files
are selected but skipped without an extraction call); a file whose
stored mtime equals its current mtime is never re-extracted; and every
row of every deleted file is removed from all four tables. -/
theorem claim3_incremental_update (d : Disk) (fs : FileSys) (pr : String) (db : Db) :
    ((updateIndex d fs pr db).extracted
      = ((scanAndLoadFiles d (updateWorkList d db)).filter fun f => !(f.content = "")).map
          ScannedFile.path) ∧
    (∀ p m, (getFileModTimes d).lookup p = some m →
      (∃ f ∈ db.files, f.path = p) →
      (∀ f ∈ db.files, f.path = p → f.modified_at = m) →
      p ∉ (updateIndex d fs pr db).extracted) ∧
    (∀ p, p ∈ getDeletedFiles db (getFileModTimes d) →
      noRowsFor (updateIndex d fs pr db).db p) := by
  have h1 : (updateIndex d fs pr db).extracted
      = ((scanAndLoadFiles d (updateWorkList d db)).filter fun f => !(f.content = "")).map
          ScannedFile.path := by
    rw [updateIndex_def]
    by_cases hE : (updateWorkList d db).isEmpty
    · rw [if_pos hE]
      rw [List.isEmpty_iff.mp hE]
      rfl
    · rw [if_neg hE, runFiles_extracted]
      rw [show (IndexSt.start
          ((getDeletedFiles db (getFileModTimes d)).foldl deleteFileData db)).extracted
        = [] from rfl]
      rw [List.nil_append]
      exact filter_map_pair _
  refine ⟨h1, ?_, ?_⟩
  · intro p m hl hex hall hmem
    rw [h1, List.mem_map] at hmem
    obtain ⟨f, hf, hfp⟩ := hmem
    have hpw : p ∈ updateWorkList d db := by
      rw [← hfp]
      exact scanAndLoadFiles_path_mem (List.mem_of_mem_filter hf)
    rcases List.mem_append.mp hpw with hstale | hnew
    · obtain ⟨g, hg, hgp, m', hl', hlt⟩ := mem_getStaleFiles_path hstale
      rw [hl] at hl'
      cases hl'
      rw [hall g hg hgp] at hlt
      exact absurd hlt (by omega)
    · obtain ⟨_, hnone⟩ := mem_getNewFiles hnew
      obtain ⟨g, hg, hgp⟩ := hex
      rw [List.any_eq_false] at hnone
      exact absurd (by simpa using hgp) (by simpa using hnone g hg)
  · intro p hdel
    rw [updateIndex_def]
    by_cases hE : (updateWorkList d db).isEmpty
    · rw [if_pos hE]
      exact foldl_deleteFileData_noRows _ _ hdel
    · rw [if_neg hE]
      refine runFiles_noFault_preserves_noRows ?_ ?_
      · intro fc hfc
        rw [List.mem_map] at hfc
        obtain ⟨f, hf, hpair⟩ := hfc
        subst hpair
        refine ⟨?_, rfl⟩
        intro heq
        exact deleted_not_in_workList hdel (heq ▸ scanAndLoadFiles_path_mem hf)
      · exact foldl_deleteFileData_noRows _ _ hdel

/-- A disk where `a.ts` has a newer mtime than `fxOldDb` recorded but its
content is now empty. -/
def fxC3Disk : Disk :=
  { files := [{ path := "a.ts", mtime := 2, content := some "", tree := fxFnTree }] }

/-- C3 counterexample: `a.ts` is stale (its mtime increased from 1 to 2),
yet the incremental update performs no extraction call for it, because
its loaded content is empty — refuting "exactly the stale files and the
new files are re-extracted". -/
theorem claim3_counterexample :
    (getStaleFiles fxOldDb (getFileModTimes fxC3Disk)).map FileRow.path = ["a.ts"] ∧
    (updateIndex fxC3Disk fxEmptyFs "/p" fxOldDb).extracted = [] := by
  decide

/-- A disk with one unchanged file `b.ts`. -/
def fxC3WitnessDisk : Disk :=
  { files := [{ path := "b.ts", mtime := 3, content := some "function f() {}"
                tree := fxFnTree }] }

/-- A store indexing `b.ts` at its current mtime and `c.ts`, which is no
longer on disk. -/
def fxC3WitnessDb : Db :=
  { files := [{ path := "b.ts", language := "typescript", modified_at := 3, loc := 1
                has_default_export := false },
              { path := "c.ts", language := "typescript", modified_at := 1, loc := 2
                has_default_export := false }]
    symbols := [{ id := 1, name := "old", file_path := "c.ts", line_start := 1, line_end := 2
                  kind := "function", signature := "function old ()", exported := false
                  is_default := false, parent_symbol_id := none }]
    imports := []
    exports := []
    nextSymbolId := 2, nextImportId := 1, nextExportId := 1 }

/-- Witness for C3 (amended): the unchanged `b.ts` is never re-extracted
and the deleted `c.ts` loses all of its rows. -/
theorem claim3_witness :
    "b.ts" ∉ (updateIndex fxC3WitnessDisk fxEmptyFs "/p" fxC3WitnessDb).extracted ∧
    noRowsFor (updateIndex fxC3WitnessDisk fxEmptyFs "/p" fxC3WitnessDb).db "c.ts" :=
  ⟨(claim3_incremental_update fxC3WitnessDisk fxEmptyFs "/p" fxC3WitnessDb).2.1 "b.ts" 3
      (by decide)
      ⟨{ path := "b.ts", language := "typescript", modified_at := 3, loc := 1
         has_default_export := false }, by decide, rfl⟩
      (by decide),
    (claim3_incremental_update fxC3WitnessDisk fxEmptyFs "/p" fxC3WitnessDb).2.2 "c.ts"
      (by decide)⟩

end Codemap
